import Mathlib

/-! # learn-go-redis: a verification development

Shallow embedding of `main.go` (the functions `set`, `get`, `setStruct`,
`getStruct`) together with executable models of the library functions those
call: `redis.String` and `redis.Int` of redigo, `strconv.ParseInt` and
`strconv.AppendInt`, `utf8.DecodeRune` and `utf8.EncodeRune`, and
`json.Marshal` / `json.Unmarshal` specialised to the `User` struct.

Go strings are byte sequences, so a Go `string` is a `List (Fin 256)` here.
Go's `int` is taken to be 64 bits wide. A Go `error` is an `Option Err`,
`none` standing for `nil`.
-/

namespace GoRedis

/-! ## Bytes and strings -/

/-- One byte of a Go string. -/
abbrev Byte := Fin 256

/-- A Go `string` (or `[]byte`): an arbitrary byte sequence. -/
abbrev Bytes := List Byte

/-- The byte with value `n` (taken modulo 256). -/
def byte (n : Nat) : Byte := ⟨n % 256, Nat.mod_lt n (by decide)⟩

/-- The bytes of an ASCII string literal of the source. -/
def ascii (s : String) : Bytes := s.toList.map (fun c => byte c.toNat)

/-! ## unicode/utf8 -/

/-- The rune `utf8.RuneError`, U+FFFD. -/
def RuneError : Nat := 0xFFFD

/-- The width `first[p0] & 7` of the encoding that starts with the byte `p0`,
for `p0` from 0xC2 to 0xF4. -/
def runeSize (p0 : Byte) : Nat :=
  if p0.val < 0xE0 then 2 else if p0.val < 0xF0 then 3 else 4

/-- The least second byte `acceptRanges[first[p0]>>4].lo` after `p0`. -/
def acceptLo (p0 : Byte) : Nat :=
  if p0.val = 0xE0 then 0xA0 else if p0.val = 0xF0 then 0x90 else 0x80

/-- The greatest second byte `acceptRanges[first[p0]>>4].hi` after `p0`. -/
def acceptHi (p0 : Byte) : Nat :=
  if p0.val = 0xED then 0x9F else if p0.val = 0xF4 then 0x8F else 0xBF

/-- Model of `utf8.DecodeRune`: the first rune of `p` and its width in bytes.
An empty input gives `(RuneError, 0)`, an invalid or truncated encoding
`(RuneError, 1)`. The masks `p0 & 0x1F`, `b & 0x3F` etc. are written as
remainders and the shifts as products. -/
def decodeRune (p : Bytes) : Nat × Nat :=
  match p with
  | [] => (RuneError, 0)
  | p0 :: rest =>
    if p0.val < 0x80 then (p0.val, 1)
    else if p0.val < 0xC2 ∨ 0xF4 < p0.val then (RuneError, 1)
    else
      match rest with
      | [] => (RuneError, 1)
      | b1 :: rest1 =>
        if rest1.length + 2 < runeSize p0 then (RuneError, 1)
        else if b1.val < acceptLo p0 ∨ acceptHi p0 < b1.val then (RuneError, 1)
        else if runeSize p0 ≤ 2 then (p0.val % 32 * 64 + b1.val % 64, 2)
        else
          match rest1 with
          | [] => (RuneError, 1)
          | b2 :: rest2 =>
            if b2.val < 0x80 ∨ 0xBF < b2.val then (RuneError, 1)
            else if runeSize p0 ≤ 3 then
              (p0.val % 16 * 4096 + b1.val % 64 * 64 + b2.val % 64, 3)
            else
              match rest2 with
              | [] => (RuneError, 1)
              | b3 :: _ =>
                if b3.val < 0x80 ∨ 0xBF < b3.val then (RuneError, 1)
                else (p0.val % 8 * 262144 + b1.val % 64 * 4096 + b2.val % 64 * 64
                        + b3.val % 64, 4)

/-- Model of `utf8.EncodeRune` / `utf8.AppendRune`: the UTF-8 encoding of the
rune `r`; surrogates and values above U+10FFFF are encoded as U+FFFD. -/
def encodeRune (r : Nat) : Bytes :=
  if r ≤ 0x7F then [byte r]
  else if r ≤ 0x7FF then [byte (0xC0 + r / 64), byte (0x80 + r % 64)]
  else if 0x10FFFF < r ∨ (0xD800 ≤ r ∧ r ≤ 0xDFFF) then [byte 0xEF, byte 0xBF, byte 0xBD]
  else if r ≤ 0xFFFF then
    [byte (0xE0 + r / 4096), byte (0x80 + r / 64 % 64), byte (0x80 + r % 64)]
  else
    [byte (0xF0 + r / 262144), byte (0x80 + r / 4096 % 64), byte (0x80 + r / 64 % 64),
      byte (0x80 + r % 64)]

/-- Loop of `utf8.Valid`: every decoding step yields a rune other than an
encoding error. The first argument bounds the number of steps. -/
def validUTF8Loop : Nat → Bytes → Bool
  | _, [] => true
  | 0, _ :: _ => false
  | f + 1, b :: rest =>
    if (decodeRune (b :: rest)).1 = RuneError ∧ (decodeRune (b :: rest)).2 = 1 then false
    else validUTF8Loop f ((b :: rest).drop (decodeRune (b :: rest)).2)

/-- Model of `utf8.Valid`: `s` consists entirely of valid UTF-8 encoded runes. -/
def validUTF8 (s : Bytes) : Bool := validUTF8Loop s.length s

/-! ## strconv -/

/-- The two causes a `*strconv.NumError` can carry. -/
inductive NumErr
  | ErrSyntax
  | ErrRange
  deriving DecidableEq

/-- The digit loop of `strconv.formatBits` for base 10: the decimal digits of
`u` are pushed in front of `acc`, least significant first. The first argument
bounds the number of iterations. -/
def formatBits : Nat → Nat → Bytes → Bytes
  | 0, u, acc => byte (0x30 + u) :: acc
  | f + 1, u, acc =>
    if 10 ≤ u then formatBits f (u / 10) (byte (0x30 + u % 10) :: acc)
    else byte (0x30 + u) :: acc

/-- Model of `strconv.AppendInt(nil, i, 10)`: the decimal text of `i`. -/
def formatInt (i : Int) : Bytes :=
  if i < 0 then byte 0x2D :: formatBits i.natAbs i.natAbs []
  else formatBits i.natAbs i.natAbs []

/-- The loop of `strconv.ParseUint(s, 10, 64)` over the bytes of `s`, with `n`
the value read so far. A byte that is not a decimal digit is a syntax error;
a value above `2^64 - 1` is a range error carrying `2^64 - 1`. -/
def parseUintLoop : Bytes → Nat → Nat × Option NumErr
  | [], n => (n, none)
  | c :: cs, n =>
    if 0x30 ≤ c.val ∧ c.val ≤ 0x39 then
      if 2 ^ 64 ≤ n * 10 + (c.val - 0x30) then (2 ^ 64 - 1, some NumErr.ErrRange)
      else parseUintLoop cs (n * 10 + (c.val - 0x30))
    else (0, some NumErr.ErrSyntax)

/-- Model of `strconv.ParseUint(s, 10, 64)`. -/
def parseUint (s : Bytes) : Nat × Option NumErr :=
  match s with
  | [] => (0, some NumErr.ErrSyntax)
  | _ :: _ => parseUintLoop s 0

/-- Model of `strconv.ParseInt(s, 10, 0)` with a 64-bit `int`. -/
def parseInt (s : Bytes) : Int × Option NumErr :=
  match s with
  | [] => (0, some NumErr.ErrSyntax)
  | c :: cs =>
    let neg : Bool := c.val = 0x2D
    let body := if c.val = 0x2B ∨ c.val = 0x2D then cs else c :: cs
    match parseUint body with
    | (_, some NumErr.ErrSyntax) => (0, some NumErr.ErrSyntax)
    | (un, _) =>
      if ¬ neg ∧ 2 ^ 63 ≤ un then (2 ^ 63 - 1, some NumErr.ErrRange)
      else if neg ∧ 2 ^ 63 < un then (-(2 ^ 63), some NumErr.ErrRange)
      else if neg then (-(un : Int), none)
      else ((un : Int), none)

/-! ## encoding/json: encoding -/

/-- The record type of the program. -/
structure User where
  Username : Bytes
  MobileID : Bytes
  Email : Bytes
  FirstName : Bytes
  LastName : Bytes
  deriving DecidableEq

/-- The table `hex` of encoding/json, `"0123456789abcdef"`, at index `n`. -/
def hexDigit (n : Nat) : Byte := if n < 10 then byte (0x30 + n) else byte (0x57 + n)

/-- The table `htmlSafeSet` of encoding/json on a byte below 0x80: printable
ASCII other than the double quote, the backslash, `&`, `<` and `>`. -/
def htmlSafe (b : Byte) : Bool :=
  0x20 ≤ b.val ∧ b.val ≠ 0x22 ∧ b.val ≠ 0x26 ∧ b.val ≠ 0x3C ∧ b.val ≠ 0x3E
    ∧ b.val ≠ 0x5C

/-- What `appendString` writes for an ASCII byte outside `htmlSafeSet`:
a two-character escape for the quote, the backslash and the control
characters that have one, a `\u00XX` escape otherwise. (Go before 1.22 wrote
backspace and form feed as `\u0008` and `\u000c`; `stringLit` reads both
forms to the same byte.) -/
def escapeByte (b : Byte) : Bytes :=
  if b.val = 0x5C ∨ b.val = 0x22 then [byte 0x5C, b]
  else if b.val = 0x08 then [byte 0x5C, byte 0x62]
  else if b.val = 0x0C then [byte 0x5C, byte 0x66]
  else if b.val = 0x0A then [byte 0x5C, byte 0x6E]
  else if b.val = 0x0D then [byte 0x5C, byte 0x72]
  else if b.val = 0x09 then [byte 0x5C, byte 0x74]
  else [byte 0x5C, byte 0x75, byte 0x30, byte 0x30, hexDigit (b.val / 16), hexDigit (b.val % 16)]

/-- The loop of `appendString` of encoding/json with HTML escaping on: the
escaped content of a JSON string, without the surrounding quotes. Invalid
UTF-8 is written as the escape of U+FFFD, and U+2028 and U+2029 are escaped.
The first argument bounds the number of iterations. -/
def appendStringLoop : Nat → Bytes → Bytes
  | _, [] => []
  | 0, _ :: _ => []
  | f + 1, b :: rest =>
    if b.val < 0x80 then
      (if htmlSafe b then [b] else escapeByte b) ++ appendStringLoop f rest
    else if (decodeRune (b :: rest)).1 = RuneError ∧ (decodeRune (b :: rest)).2 = 1 then
      ascii "\\ufffd" ++ appendStringLoop f rest
    else if (decodeRune (b :: rest)).1 = 0x2028 ∨ (decodeRune (b :: rest)).1 = 0x2029 then
      ascii "\\u202" ++ [hexDigit ((decodeRune (b :: rest)).1 % 16)]
        ++ appendStringLoop f ((b :: rest).drop (decodeRune (b :: rest)).2)
    else
      (b :: rest).take (decodeRune (b :: rest)).2
        ++ appendStringLoop f ((b :: rest).drop (decodeRune (b :: rest)).2)

/-- Model of `appendString` of encoding/json: `s` as a quoted JSON string. -/
def appendString (s : Bytes) : Bytes :=
  byte 0x22 :: (appendStringLoop s.length s ++ [byte 0x22])

/-! ## Errors -/

/-- The Go `error` values the program can meet. -/
inductive Err
  /-- The sentinel `redis.ErrNil`, "redigo: nil returned". -/
  | ErrNil
  /-- An error returned by the connection: a network failure or an error
  reply of the server (`redis.Error`). -/
  | conn (msg : String)
  /-- The error of `redis.String` / `redis.Int` on a reply of another type. -/
  | unexpectedType (fn : String)
  /-- A `*strconv.NumError`. -/
  | num (e : NumErr)
  /-- A `*json.SyntaxError`. -/
  | jsonSyntaxError
  /-- A `*json.UnmarshalTypeError` with its `Value` field. -/
  | jsonTypeError (value : String)
  deriving DecidableEq

/-- Model of `json.Marshal(user)` for a `User`: the five fields in declaration
order, each name followed by its value as a JSON string. It never fails. -/
def jsonMarshal (user : User) : Bytes × Option Err :=
  (ascii "\x7b\"Username\":" ++ appendString user.Username
    ++ ascii ",\"MobileID\":" ++ appendString user.MobileID
    ++ ascii ",\"Email\":" ++ appendString user.Email
    ++ ascii ",\"FirstName\":" ++ appendString user.FirstName
    ++ ascii ",\"LastName\":" ++ appendString user.LastName
    ++ ascii "\x7d", none)

/-! ## encoding/json: decoding -/

/-- The kind of a JSON value as the decoder sees it; a string carries its
unquoted content, the content of arrays and objects is checked and skipped. -/
inductive Item
  | null
  | bool
  | number
  | str (s : Bytes)
  | array
  | object
  deriving DecidableEq

/-- JSON white space: space, tab, carriage return, line feed. -/
def isSpace (c : Byte) : Bool :=
  c.val = 0x20 ∨ c.val = 0x09 ∨ c.val = 0x0D ∨ c.val = 0x0A

/-- Drops leading JSON white space. -/
def skipSpace : Bytes → Bytes
  | [] => []
  | c :: cs => if isSpace c then skipSpace cs else c :: cs

/-- The value of a hexadecimal digit, as in `getu4`. -/
def hexVal (c : Byte) : Option Nat :=
  if 0x30 ≤ c.val ∧ c.val ≤ 0x39 then some (c.val - 0x30)
  else if 0x61 ≤ c.val ∧ c.val ≤ 0x66 then some (c.val - 0x61 + 10)
  else if 0x41 ≤ c.val ∧ c.val ≤ 0x46 then some (c.val - 0x41 + 10)
  else none

/-- Model of `getu4`: the code unit of a `\uXXXX` escape at the head of `s`,
`none` (Go's -1) when `s` does not start with one. -/
def getu4 (s : Bytes) : Option Nat :=
  match s with
  | b0 :: b1 :: h1 :: h2 :: h3 :: h4 :: _ =>
    if b0.val = 0x5C ∧ b1.val = 0x75 then
      match hexVal h1, hexVal h2, hexVal h3, hexVal h4 with
      | some a, some b, some c, some d => some (((a * 16 + b) * 16 + c) * 16 + d)
      | _, _, _, _ => none
    else none
  | _ => none

/-- Model of `utf16.DecodeRune`: the rune of a surrogate pair, U+FFFD when
the two code units are not a high and a low surrogate (`none` is Go's -1). -/
def utf16DecodeRune (r1 : Nat) (r2 : Option Nat) : Nat :=
  match r2 with
  | some r2 =>
    if 0xD800 ≤ r1 ∧ r1 < 0xDC00 ∧ 0xDC00 ≤ r2 ∧ r2 < 0xE000 then
      (r1 - 0xD800) * 1024 + (r2 - 0xDC00) + 0x10000
    else RuneError
  | none => RuneError

/-- A JSON string literal, read from just after its opening quote: the
scanner's check of the literal and `unquoteBytes` in one pass. Returns `acc`
followed by the unquoted content, and the input after the closing quote;
`none` when the literal is malformed (unterminated, a control character, a
bad escape). Invalid UTF-8 is replaced by U+FFFD. The first argument bounds
the number of steps. -/
def stringLit : Nat → Bytes → Bytes → Option (Bytes × Bytes)
  | 0, _, _ => none
  | _ + 1, [], _ => none
  | f + 1, c :: rest, acc =>
    if c.val = 0x22 then some (acc, rest)
    else if c.val = 0x5C then
      match rest with
      | [] => none
      | e :: rest1 =>
        if e.val = 0x22 ∨ e.val = 0x5C ∨ e.val = 0x2F then stringLit f rest1 (acc ++ [e])
        else if e.val = 0x62 then stringLit f rest1 (acc ++ [byte 0x08])
        else if e.val = 0x66 then stringLit f rest1 (acc ++ [byte 0x0C])
        else if e.val = 0x6E then stringLit f rest1 (acc ++ [byte 0x0A])
        else if e.val = 0x72 then stringLit f rest1 (acc ++ [byte 0x0D])
        else if e.val = 0x74 then stringLit f rest1 (acc ++ [byte 0x09])
        else if e.val = 0x75 then
          match getu4 (c :: rest) with
          | none => none
          | some rr =>
            if 0xD800 ≤ rr ∧ rr < 0xE000 then
              if utf16DecodeRune rr (getu4 (rest1.drop 4)) ≠ RuneError then
                stringLit f (rest1.drop 10)
                  (acc ++ encodeRune (utf16DecodeRune rr (getu4 (rest1.drop 4))))
              else stringLit f (rest1.drop 4) (acc ++ encodeRune RuneError)
            else stringLit f (rest1.drop 4) (acc ++ encodeRune rr)
        else none
    else if c.val < 0x20 then none
    else if c.val < 0x80 then stringLit f rest (acc ++ [c])
    else
      stringLit f ((c :: rest).drop (decodeRune (c :: rest)).2)
        (acc ++ encodeRune (decodeRune (c :: rest)).1)

/-- Drops leading decimal digits. -/
def skipDigits : Bytes → Bytes
  | [] => []
  | c :: cs => if 0x30 ≤ c.val ∧ c.val ≤ 0x39 then skipDigits cs else c :: cs

/-- One or more decimal digits; the input after them. -/
def digits1 (s : Bytes) : Option Bytes :=
  match s with
  | c :: cs => if 0x30 ≤ c.val ∧ c.val ≤ 0x39 then some (skipDigits cs) else none
  | [] => none

/-- A JSON number literal (the scanner states `stateNeg` to `stateE0`): an
optional minus, `0` or a digit sequence not starting with `0`, an optional
fraction, an optional exponent. Returns the input after the literal. -/
def numberLit (s : Bytes) : Option Bytes :=
  let s1 := match s with
    | c :: cs => if c.val = 0x2D then cs else c :: cs
    | [] => []
  let afterInt : Option Bytes := match s1 with
    | c :: cs =>
      if c.val = 0x30 then some cs
      else if 0x31 ≤ c.val ∧ c.val ≤ 0x39 then some (skipDigits cs)
      else none
    | [] => none
  let afterFrac : Option Bytes := match afterInt with
    | some (c :: cs) => if c.val = 0x2E then digits1 cs else some (c :: cs)
    | other => other
  match afterFrac with
  | some (c :: cs) =>
    if c.val = 0x65 ∨ c.val = 0x45 then
      match cs with
      | d :: ds => if d.val = 0x2B ∨ d.val = 0x2D then digits1 ds else digits1 (d :: ds)
      | [] => none
    else some (c :: cs)
  | other => other

/-- The input after the keyword `kw` when the input starts with it. -/
def keyword (kw : Bytes) (s : Bytes) : Option Bytes :=
  if kw.isPrefixOf s then some (s.drop kw.length) else none

/-- The elements of a JSON array after the first one has been found to start
at the head of the input: a value, then a comma and another element, or the
closing bracket. `pv` reads one value. Returns the input after the bracket. -/
def elements (pv : Bytes → Option (Item × Bytes)) : Nat → Bytes → Option Bytes
  | 0, _ => none
  | f + 1, s =>
    match pv s with
    | none => none
    | some (_, rest) =>
      match skipSpace rest with
      | c :: rest1 =>
        if c.val = 0x2C then elements pv f (skipSpace rest1)
        else if c.val = 0x5D then some rest1
        else none
      | [] => none

/-- A JSON array read from just after its opening bracket. -/
def arrayBody (pv : Bytes → Option (Item × Bytes)) (s : Bytes) : Option Bytes :=
  match skipSpace s with
  | [] => none
  | c :: rest =>
    if c.val = 0x5D then some rest else elements pv (rest.length + 1) (c :: rest)

/-- The members of a JSON object, the head of the input being where a key
must start: a string key, a colon, a value, then a comma and another member,
or the closing brace. Returns the keys (unquoted) with their values, in
order, and the input after the brace. -/
def members (pv : Bytes → Option (Item × Bytes)) :
    Nat → Bytes → Option (List (Bytes × Item) × Bytes)
  | 0, _ => none
  | f + 1, s =>
    match s with
    | [] => none
    | q :: rest =>
      if q.val = 0x22 then
        match stringLit (rest.length + 1) rest [] with
        | none => none
        | some (key, rest1) =>
          match skipSpace rest1 with
          | [] => none
          | colon :: rest2 =>
            if colon.val = 0x3A then
              match pv (skipSpace rest2) with
              | none => none
              | some (item, rest3) =>
                match skipSpace rest3 with
                | [] => none
                | c :: rest4 =>
                  if c.val = 0x2C then
                    match members pv f (skipSpace rest4) with
                    | none => none
                    | some (ms, rest5) => some ((key, item) :: ms, rest5)
                  else if c.val = 0x7D then some ([(key, item)], rest4)
                  else none
            else none
      else none

/-- A JSON object read from just after its opening brace. -/
def objectBody (pv : Bytes → Option (Item × Bytes)) (s : Bytes) :
    Option (List (Bytes × Item) × Bytes) :=
  match skipSpace s with
  | [] => none
  | c :: rest =>
    if c.val = 0x7D then some ([], rest) else members pv (rest.length + 1) (c :: rest)

/-- One JSON value at the head of the input (no leading white space), and
the input after it. The first argument is how many more levels of arrays and
objects may be opened (the scanner's `maxNestingDepth`). -/
def value : Nat → Bytes → Option (Item × Bytes)
  | _, [] => none
  | d, c :: rest =>
    if c.val = 0x22 then
      match stringLit (rest.length + 1) rest [] with
      | some (s, rest1) => some (Item.str s, rest1)
      | none => none
    else if c.val = 0x7B then
      match d with
      | 0 => none
      | d1 + 1 =>
        match objectBody (value d1) rest with
        | some (_, rest1) => some (Item.object, rest1)
        | none => none
    else if c.val = 0x5B then
      match d with
      | 0 => none
      | d1 + 1 =>
        match arrayBody (value d1) rest with
        | some rest1 => some (Item.array, rest1)
        | none => none
    else if c.val = 0x2D ∨ (0x30 ≤ c.val ∧ c.val ≤ 0x39) then
      match numberLit (c :: rest) with
      | some rest1 => some (Item.number, rest1)
      | none => none
    else if c.val = 0x74 then
      match keyword (ascii "true") (c :: rest) with
      | some rest1 => some (Item.bool, rest1)
      | none => none
    else if c.val = 0x66 then
      match keyword (ascii "false") (c :: rest) with
      | some rest1 => some (Item.bool, rest1)
      | none => none
    else if c.val = 0x6E then
      match keyword (ascii "null") (c :: rest) with
      | some rest1 => some (Item.null, rest1)
      | none => none
    else none

/-- The scanner's `maxNestingDepth`. -/
def maxNestingDepth : Nat := 10000

/-- A whole JSON text, as `checkValid` accepts it. -/
inductive Top
  | object (ms : List (Bytes × Item))
  | other (item : Item)
  deriving DecidableEq

/-- Reads a whole JSON text: one value with optional white space around it.
`none` when the text is not valid JSON (what `checkValid` rejects). -/
def parseTop (data : Bytes) : Option Top :=
  match skipSpace data with
  | [] => none
  | c :: rest =>
    if c.val = 0x7B then
      match objectBody (value (maxNestingDepth - 1)) rest with
      | some (ms, rest1) => if skipSpace rest1 = [] then some (Top.object ms) else none
      | none => none
    else
      match value maxNestingDepth (c :: rest) with
      | some (item, rest1) => if skipSpace rest1 = [] then some (Top.other item) else none
      | none => none

/-- The byte `b & caseMask` of encoding/json (`caseMask` is `^0x20`): `b`
with bit 5 cleared, which maps an ASCII letter to its upper case. -/
def caseMasked (b : Byte) : Nat := b.val - b.val / 32 % 2 * 32

/-- Model of `equalFoldRight` of encoding/json: the field name `s` (ASCII)
against the key `t` up to ASCII case, U+017F standing for `s`/`S` and U+212A
for `k`/`K`. -/
def equalFold : Bytes → Bytes → Bool
  | [], t => t.isEmpty
  | _ :: _, [] => false
  | sb :: s, tb :: t =>
    if tb.val < 0x80 then
      if sb = tb then equalFold s t
      else if 0x41 ≤ caseMasked sb ∧ caseMasked sb ≤ 0x5A
          ∧ caseMasked sb = caseMasked tb then
        equalFold s t
      else false
    else if (sb.val = 0x73 ∨ sb.val = 0x53) ∧ (decodeRune (tb :: t)).1 = 0x17F then
      equalFold s ((tb :: t).drop (decodeRune (tb :: t)).2)
    else if (sb.val = 0x6B ∨ sb.val = 0x4B) ∧ (decodeRune (tb :: t)).1 = 0x212A then
      equalFold s ((tb :: t).drop (decodeRune (tb :: t)).2)
    else false

/-- The exported fields of `User`, in declaration order. -/
def fieldNames : List Bytes :=
  [ascii "Username", ascii "MobileID", ascii "Email", ascii "FirstName", ascii "LastName"]

/-- The field a key of a JSON object selects: the one of that exact name,
failing that the first whose name matches under `equalFold`. -/
def findField (key : Bytes) : Option Nat :=
  match fieldNames.indexOf? key with
  | some i => some i
  | none => fieldNames.findIdx? (fun name => equalFold name key)

/-- Stores `s` in the field of index `i`. -/
def setField (user : User) (i : Nat) (s : Bytes) : User :=
  match i with
  | 0 => { user with Username := s }
  | 1 => { user with MobileID := s }
  | 2 => { user with Email := s }
  | 3 => { user with FirstName := s }
  | _ => { user with LastName := s }

/-- What `saveError` keeps: the first error. -/
def saveError (saved : Option Err) (e : Err) : Option Err :=
  match saved with
  | some e0 => some e0
  | none => some e

/-- The name encoding/json gives the kind of a value in an
`UnmarshalTypeError`. -/
def Item.typeName : Item → String
  | Item.null => "null"
  | Item.bool => "bool"
  | Item.number => "number"
  | Item.str _ => "string"
  | Item.array => "array"
  | Item.object => "object"

/-- The loop of `(*decodeState).object` into a `User`: each member whose key
selects a field stores a string value there, leaves the field alone on
`null`, and records a type error (going on with the next member) on a value
of another kind; members with other keys are skipped. -/
def decodeMembers : List (Bytes × Item) → User → Option Err → User × Option Err
  | [], user, saved => (user, saved)
  | (key, item) :: ms, user, saved =>
    match findField key with
    | none => decodeMembers ms user saved
    | some i =>
      match item with
      | Item.str s => decodeMembers ms (setField user i s) saved
      | Item.null => decodeMembers ms user saved
      | other => decodeMembers ms user (saveError saved (Err.jsonTypeError other.typeName))

/-- Model of `json.Unmarshal(data, &user)`: `checkValid` rejects a text that
is not valid JSON before anything is stored; an object is decoded member by
member; `null` stores nothing; any other value is a type error. Returns the
record as the call leaves it, and the error. -/
def jsonUnmarshal (data : Bytes) (user : User) : User × Option Err :=
  match parseTop data with
  | none => (user, some Err.jsonSyntaxError)
  | some (Top.object ms) => decodeMembers ms user none
  | some (Top.other Item.null) => (user, none)
  | some (Top.other item) => (user, some (Err.jsonTypeError item.typeName))

/-! ## The connection and redigo's reply helpers -/

/-- An argument of `Conn.Do`, by its Go type. -/
inductive Arg
  | str (s : Bytes)
  | int (n : Int)
  | bytes (b : Bytes)
  deriving DecidableEq

/-- A reply of `Conn.Do`, by its dynamic Go type: `nil`, `[]byte` (a bulk
string), `string` (a status line), `int64`, `redis.Error`, or
`[]interface{}` (its elements are not modelled; the helpers below only look
at the type). -/
inductive Reply
  | nil
  | bulk (b : Bytes)
  | status (s : Bytes)
  | integer (n : Int)
  | error (msg : String)
  | array
  deriving DecidableEq

/-- The interface `redis.Conn` as the program uses it: `Do` maps the state of
the connection, a command name and its arguments to a reply, an error, and
the next state. Implementations are arbitrary. -/
structure Conn (σ : Type) where
  Do : σ → String → List Arg → (Reply × Option Err) × σ

/-- Model of `redis.String(reply, err)`. -/
def redisString (r : Reply × Option Err) : Bytes × Option Err :=
  match r with
  | (_, some err) => ([], some err)
  | (Reply.bulk b, none) => (b, none)
  | (Reply.status s, none) => (s, none)
  | (Reply.nil, none) => ([], some Err.ErrNil)
  | (Reply.error msg, none) => ([], some (Err.conn msg))
  | (_, none) => ([], some (Err.unexpectedType "String"))

/-- Model of `redis.Int(reply, err)` with a 64-bit `int`: a bulk string is
parsed by `strconv.ParseInt(s, 10, 0)`, whose value and error are returned
as they are. -/
def redisInt (r : Reply × Option Err) : Int × Option Err :=
  match r with
  | (_, some err) => (0, some err)
  | (Reply.integer n, none) => (n, none)
  | (Reply.bulk b, none) => ((parseInt b).1, (parseInt b).2.map Err.num)
  | (Reply.nil, none) => (0, some Err.ErrNil)
  | (Reply.error msg, none) => (0, some (Err.conn msg))
  | (_, none) => (0, some (Err.unexpectedType "Int"))

/-! ## What the program does: commands, library calls, output -/

/-- An operand of a `fmt` call. -/
inductive Val
  | str (s : Bytes)
  | int (n : Int)
  | user (u : User)
  deriving DecidableEq

/-- One observable step of the program: a command sent with `Conn.Do`, a
call of `json.Marshal` or `json.Unmarshal` with its argument, or a call of
`fmt.Printf` / `fmt.Println` with its format and operands. -/
inductive Event
  | cmd (name : String) (args : List Arg)
  | marshal (u : User)
  | unmarshal (data : Bytes)
  | printf (format : String) (args : List Val)
  | println (text : String)
  deriving DecidableEq

/-- The state an operation runs in: the state of the connection and the
steps taken so far. -/
structure World (σ : Type) where
  conn : σ
  trace : List Event

/-- Appends a step to the trace. -/
def World.emit {σ : Type} (w : World σ) (e : Event) : World σ :=
  { conn := w.conn, trace := w.trace ++ [e] }

/-- The call `c.Do(name, args...)`: the command is recorded and handed to
the connection. -/
def doCmd {σ : Type} (c : Conn σ) (w : World σ) (name : String) (args : List Arg) :
    (Reply × Option Err) × World σ :=
  ((c.Do w.conn name args).1,
    { conn := (c.Do w.conn name args).2, trace := w.trace ++ [Event.cmd name args] })

/-- The commands of a trace, in order. -/
def commands : List Event → List (String × List Arg)
  | [] => []
  | Event.cmd name args :: es => (name, args) :: commands es
  | _ :: es => commands es

/-! ## main.go -/

/-- The function `set` of main.go. -/
def set {σ : Type} (c : Conn σ) (w : World σ) : Option Err × World σ :=
  match doCmd c w "SET" [Arg.str (ascii "Favorite Movie"), Arg.str (ascii "Repo Man")] with
  | ((_, some err), w1) => (some err, w1)
  | ((_, none), w1) =>
    match doCmd c w1 "SET" [Arg.str (ascii "Release Year"), Arg.int 1984] with
    | ((_, some err), w2) => (some err, w2)
    | ((_, none), w2) => (none, w2)

/-- The function `get` of main.go. -/
def get {σ : Type} (c : Conn σ) (w : World σ) : Option Err × World σ :=
  match doCmd c w "GET" [Arg.str (ascii "Favorite Movie")] with
  | (r1, w1) =>
    match redisString r1 with
    | (_, some err) => (some err, w1)
    | (s, none) =>
      match doCmd c
          (w1.emit (Event.printf "%s = %s\n" [Val.str (ascii "Favorite Movie"), Val.str s]))
          "GET" [Arg.str (ascii "Release Year")] with
      | (r2, w2) =>
        match redisInt r2 with
        | (_, some err) => (some err, w2)
        | (i, none) =>
          match doCmd c
              (w2.emit (Event.printf "%s = %d\n" [Val.str (ascii "Release Year"), Val.int i]))
              "GET" [Arg.str (ascii "Nonexistent Key")] with
          | (r3, w3) =>
            match redisString r3 with
            | (_, some Err.ErrNil) =>
              (none, w3.emit (Event.printf "%s does not exist\n"
                [Val.str (ascii "Nonexistent Key")]))
            | (_, some err) => (some err, w3)
            | (s3, none) =>
              (none, w3.emit (Event.printf "%s = %s\n"
                [Val.str (ascii "Nonexistent Key"), Val.str s3]))

/-- The constant `objectPrefix` of `setStruct` and `getStruct`. -/
def objectPrefix : Bytes := ascii "user:"

/-- The body of `setStruct` from the call of `json.Marshal` on, for the
record `user`. -/
def setStructOf {σ : Type} (user : User) (c : Conn σ) (w : World σ) : Option Err × World σ :=
  match jsonMarshal user with
  | (_, some err) => (some err, w.emit (Event.marshal user))
  | (json, none) =>
    match doCmd c (w.emit (Event.marshal user)) "SET"
        [Arg.str ( objectPrefix ++ user.Username), Arg.bytes json] with
    | ((_, some err), w1) => (some err, w1)
    | ((_, none), w1) => (none, w1)

/-- The record `setStruct` writes. -/
def theUser : User :=
  { Username := ascii "coderminer.com"
    MobileID := ascii "12345678941"
    Email := ascii "kevin@163.com"
    FirstName := ascii "coderminer.com"
    LastName := ascii "coderminer.com" }

/-- The function `setStruct` of main.go. -/
def setStruct {σ : Type} (c : Conn σ) (w : World σ) : Option Err × World σ :=
  setStructOf theUser c w

/-- The zero value `User{}`. -/
def zeroUser : User :=
  { Username := [], MobileID := [], Email := [], FirstName := [], LastName := [] }

/-- The body of `getStruct` for the identity `username`. The error of
`json.Unmarshal` is assigned to `err` and not looked at again: the function
returns `nil` after printing the record. -/
def getStructOf {σ : Type} (username : Bytes) (c : Conn σ) (w : World σ) :
    Option Err × World σ :=
  match doCmd c w "GET" [Arg.str ( objectPrefix ++ username)] with
  | (r, w1) =>
    match redisString r with
    | (s, some Err.ErrNil) =>
      (none, (((w1.emit (Event.println "User does not exist")).emit (Event.unmarshal s)).emit
        (Event.printf "%+v\n" [Val.user (jsonUnmarshal s zeroUser).1])))
    | (_, some err) => (some err, w1)
    | (s, none) =>
      (none, ((w1.emit (Event.unmarshal s)).emit
        (Event.printf "%+v\n" [Val.user (jsonUnmarshal s zeroUser).1])))

/-- The function `getStruct` of main.go. -/
def getStruct {σ : Type} (c : Conn σ) (w : World σ) : Option Err × World σ :=
  getStructOf (ascii "coderminer.com") c w

/-! ## A model of the store behind the connection -/

/-- The bytes redigo writes on the wire for an argument: a string or byte
slice as it is, an `int` in decimal. -/
def argBytes : Arg → Bytes
  | Arg.str s => s
  | Arg.bytes b => b
  | Arg.int n => formatInt n

/-- A key-value store reached through a connection: a map from keys to
string values, and for each coming command whether the connection fails on
it (`some err`) or carries it out (`none`; so does an exhausted list). -/
structure Store where
  data : Bytes → Option Bytes
  faults : List (Option Err)

/-- The store's answer to a command that reaches it: `SET key value` stores
the value and answers `OK`; `GET key` answers the value as a bulk string, or
`nil` when the key has none; anything else is an error reply, which redigo
returns both as the reply and as the error of `Do`. -/
def Store.exec (data : Bytes → Option Bytes) (name : String) (args : List Arg) :
    (Reply × Option Err) × (Bytes → Option Bytes) :=
  match name, args with
  | "SET", [k, v] =>
    ((Reply.status (ascii "OK"), none),
      fun k1 => if k1 = argBytes k then some (argBytes v) else data k1)
  | "GET", [k] =>
    match data (argBytes k) with
    | some v => ((Reply.bulk v, none), data)
    | none => ((Reply.nil, none), data)
  | _, _ => ((Reply.error "ERR unknown command", some (Err.conn "ERR unknown command")), data)

/-- One `Do` on the store: a scheduled fault makes the command fail without
touching the data, otherwise the command is carried out. -/
def Store.Do (st : Store) (name : String) (args : List Arg) : (Reply × Option Err) × Store :=
  match st.faults with
  | some err :: fs => ((Reply.nil, some err), { data := st.data, faults := fs })
  | none :: fs =>
    ((Store.exec st.data name args).1, { data := (Store.exec st.data name args).2, faults := fs })
  | [] =>
    ((Store.exec st.data name args).1, { data := (Store.exec st.data name args).2, faults := [] })

/-- The connection to the model store. -/
def storeConn : Conn Store := { Do := Store.Do }

/-- A store with the given content that carries out every command. -/
def accepting (data : Bytes → Option Bytes) : Store := { data := data, faults := [] }

/-- The start of a run on a connection in state `st`: nothing done yet. -/
def start {σ : Type} (st : σ) : World σ := { conn := st, trace := [] }

/-- The empty store content. -/
def noData : Bytes → Option Bytes := fun _ => none

/-! ## Concrete stores and texts used as examples -/

/-- An error of the connection: the server cannot be reached. -/
def connReset : Err := Err.conn "dial tcp :6379: connection connReset"

/-- The store content `set` leaves on an empty store. -/
def demoData : Bytes → Option Bytes := fun k =>
  if k = ascii "Favorite Movie" then some (ascii "Repo Man")
  else if k = ascii "Release Year" then some (ascii "1984")
  else none

/-- A store with content `data` whose connection carries out the next `n`
commands and fails on the one after them. -/
def failingAfter (n : Nat) (data : Bytes → Option Bytes) : Store :=
  { data := data, faults := List.replicate n none ++ [some connReset] }

/-- The store content with `text` under "user:coderminer.com" and nothing
else. -/
def recordAt (text : Bytes) : Bytes → Option Bytes := fun k =>
  if k = ascii "user:coderminer.com" then some text else none

/-- The store content with a title under "Favorite Movie" and nothing else. -/
def movieOnly : Bytes → Option Bytes := fun k =>
  if k = ascii "Favorite Movie" then some (ascii "Repo Man") else none

/-- The store content with a title under "Favorite Movie" and, under
"Release Year", a text that is not a number. -/
def wordyYear : Bytes → Option Bytes := fun k =>
  if k = ascii "Favorite Movie" then some (ascii "Repo Man")
  else if k = ascii "Release Year" then some (ascii "nineteen eighty-four")
  else none

/-- The store content with a title under "Favorite Movie" and, under
"Release Year", the decimal text of 2^63, one more than the greatest `int`. -/
def hugeYear : Bytes → Option Bytes := fun k =>
  if k = ascii "Favorite Movie" then some (ascii "Repo Man")
  else if k = ascii "Release Year" then some (ascii "9223372036854775808")
  else none

/-- A truncated JSON text. -/
def truncatedRecord : Bytes := ascii "\x7b\"Username\":"

/-- A JSON object whose `MobileID` is a number. -/
def nonStringRecord : Bytes := ascii "\x7b\"Username\":\"a\",\"MobileID\":5\x7d"

/-- A record whose `Username` is the single byte 0xFF, which is not valid
UTF-8. -/
def latin1User : User :=
  { Username := [byte 0xFF], MobileID := [], Email := [], FirstName := [], LastName := [] }

/-- What is read back for `latin1User`: U+FFFD in place of the byte 0xFF. -/
def replacedUser : User :=
  { Username := [byte 0xEF, byte 0xBF, byte 0xBD], MobileID := [], Email := [], FirstName := [],
    LastName := [] }

/-! ## Predicates of the specification -/

/-- An ASCII decimal digit. -/
def isDigit (c : Byte) : Bool := 0x30 ≤ c.val ∧ c.val ≤ 0x39

/-- The text is written as a decimal integer: an optional sign followed by
one or more decimal digits. -/
def decimalSyntax (t : Bytes) : Bool :=
  match t with
  | [] => false
  | c :: cs =>
    if c.val = 0x2B ∨ c.val = 0x2D then !cs.isEmpty && cs.all isDigit
    else (c :: cs).all isDigit

/-- The number a sequence of decimal digits spells, read after the number `n`. -/
def digitsValue : Bytes → Nat → Nat
  | [], n => n
  | c :: cs, n => digitsValue cs (n * 10 + (c.val - 0x30))

/-- The integer a text of decimal syntax spells. -/
def decimalValue (t : Bytes) : Int :=
  match t with
  | [] => 0
  | c :: cs =>
    if c.val = 0x2D then -(digitsValue cs 0 : Int)
    else if c.val = 0x2B then (digitsValue cs 0 : Int)
    else (digitsValue (c :: cs) 0 : Int)

/-- The text is a valid decimal integer for Go's 64-bit `int`: it is written
as a decimal integer and the integer it spells is in range. -/
def spellsInt (t : Bytes) : Bool :=
  decimalSyntax t && decide (-(2 ^ 63) ≤ decimalValue t) && decide (decimalValue t < 2 ^ 63)

/-- Every field of the record is valid UTF-8. -/
def User.validUTF8 (u : User) : Bool :=
  GoRedis.validUTF8 u.Username && GoRedis.validUTF8 u.MobileID && GoRedis.validUTF8 u.Email
    && GoRedis.validUTF8 u.FirstName && GoRedis.validUTF8 u.LastName

/-- The range of Go's `int` on a 64-bit platform. -/
def isInt64 (i : Int) : Prop := -(2 ^ 63) ≤ i ∧ i < 2 ^ 63

/-! ## Lemmas on traces and keys -/

theorem commands_append (xs ys : List Event) :
    commands (xs ++ ys) = commands xs ++ commands ys := by
  induction xs with
  | nil => rfl
  | cons e es ih => cases e <;> simp [commands, ih]

theorem objectPrefix_username :
    objectPrefix ++ theUser.Username = ascii "user:coderminer.com" := by
  decide

theorem objectPrefix_identity :
    objectPrefix ++ ascii "coderminer.com" = ascii "user:coderminer.com" := by
  decide

theorem jsonUnmarshal_empty :
    jsonUnmarshal [] zeroUser = (zeroUser, some Err.jsonSyntaxError) := by
  decide

theorem redisString_error (r : Reply × Option Err) (e : Err)
    (h : (redisString r).2 = some e) : redisString r = ([], some e) := by
  rcases r with ⟨r, err⟩
  cases err <;> cases r <;> simp_all [redisString]

theorem setStructOf_eq {σ : Type} (user : User) (c : Conn σ) (w : World σ) :
    setStructOf user c w =
      (((c.Do w.conn "SET" [Arg.str ( objectPrefix ++ user.Username),
          Arg.bytes (jsonMarshal user).1]).1.2),
        { conn := (c.Do w.conn "SET" [Arg.str ( objectPrefix ++ user.Username),
            Arg.bytes (jsonMarshal user).1]).2,
          trace := w.trace ++ [Event.marshal user,
            Event.cmd "SET" [Arg.str ( objectPrefix ++ user.Username),
              Arg.bytes (jsonMarshal user).1]] }) := by
  rcases hdo : c.Do w.conn "SET" [Arg.str ( objectPrefix ++ user.Username),
          Arg.bytes (jsonMarshal user).1] with ⟨⟨r, err⟩, s1⟩
  have hm : jsonMarshal user = ((jsonMarshal user).1, none) := rfl
  unfold setStructOf
  rw [hm]
  cases err <;> simp [doCmd, World.emit, hdo]

/-! ## UTF-8: decoding and encoding are inverse on valid input -/

theorem byte_val (n : Nat) : (byte n).val = n % 256 := rfl

theorem byte_eq (b : Byte) (n : Nat) (h : n = b.val) : byte n = b := by
  apply Fin.ext
  rw [byte_val, h]
  exact Nat.mod_eq_of_lt b.isLt

theorem decodeRune_ascii (b : Byte) (rest : Bytes) (h : b.val < 0x80) :
    decodeRune (b :: rest) = (b.val, 1) := by
  simp [decodeRune, h]

theorem acceptLo_ge (b : Byte) : 0x80 ≤ acceptLo b := by
  unfold acceptLo; split_ifs <;> omega

theorem acceptHi_le (b : Byte) : acceptHi b ≤ 0xBF := by
  unfold acceptHi; split_ifs <;> omega

theorem decodeRune_two (b b1 : Byte) (t : Bytes) (h0 : 0xC2 ≤ b.val) (h1 : b.val < 0xE0)
    (h2 : 0x80 ≤ b1.val) (h3 : b1.val ≤ 0xBF) :
    decodeRune (b :: b1 :: t) = (b.val % 32 * 64 + b1.val % 64, 2) := by
  have c1 : ¬ b.val < 0x80 := by omega
  have c2 : ¬ (b.val < 0xC2 ∨ 0xF4 < b.val) := by omega
  have hs : runeSize b = 2 := by simp [runeSize, h1]
  have hlo : acceptLo b = 0x80 := by unfold acceptLo; split_ifs <;> omega
  have hhi : acceptHi b = 0xBF := by unfold acceptHi; split_ifs <;> omega
  have c3 : ¬ (t.length + 2 < 2) := by omega
  have c7 : ¬ (b1.val < 0x80 ∨ 0xBF < b1.val) := by omega
  simp only [decodeRune, c1, c2, hs, hlo, hhi, c3, c7, if_false, le_refl, if_true]

theorem decodeRune_three (b b1 b2 : Byte) (t : Bytes) (h0 : 0xE0 ≤ b.val) (h1 : b.val < 0xF0)
    (h2 : acceptLo b ≤ b1.val) (h3 : b1.val ≤ acceptHi b)
    (h4 : 0x80 ≤ b2.val) (h5 : b2.val ≤ 0xBF) :
    decodeRune (b :: b1 :: b2 :: t)
      = (b.val % 16 * 4096 + b1.val % 64 * 64 + b2.val % 64, 3) := by
  have c1 : ¬ b.val < 0x80 := by omega
  have c2 : ¬ (b.val < 0xC2 ∨ 0xF4 < b.val) := by omega
  have hs : runeSize b = 3 := by unfold runeSize; split_ifs <;> omega
  have c3 : ¬ ((b2 :: t).length + 2 < 3) := by simp
  have c4 : ¬ (b1.val < acceptLo b ∨ acceptHi b < b1.val) := by omega
  have c5 : ¬ ((3 : Nat) ≤ 2) := by omega
  have c7 : ¬ (b2.val < 0x80 ∨ 0xBF < b2.val) := by omega
  simp only [decodeRune, c1, c2, hs, c3, c4, c5, c7, if_false, le_refl, if_true]

theorem decodeRune_four (b b1 b2 b3 : Byte) (t : Bytes) (h0 : 0xF0 ≤ b.val) (h1 : b.val ≤ 0xF4)
    (h2 : acceptLo b ≤ b1.val) (h3 : b1.val ≤ acceptHi b)
    (h4 : 0x80 ≤ b2.val) (h5 : b2.val ≤ 0xBF) (h6 : 0x80 ≤ b3.val) (h7 : b3.val ≤ 0xBF) :
    decodeRune (b :: b1 :: b2 :: b3 :: t)
      = (b.val % 8 * 262144 + b1.val % 64 * 4096 + b2.val % 64 * 64 + b3.val % 64, 4) := by
  have c1 : ¬ b.val < 0x80 := by omega
  have c2 : ¬ (b.val < 0xC2 ∨ 0xF4 < b.val) := by omega
  have hs : runeSize b = 4 := by unfold runeSize; split_ifs <;> omega
  have c3 : ¬ ((b2 :: b3 :: t).length + 2 < 4) := by simp
  have c4 : ¬ (b1.val < acceptLo b ∨ acceptHi b < b1.val) := by omega
  have c5 : ¬ ((4 : Nat) ≤ 2) := by omega
  have c6 : ¬ ((4 : Nat) ≤ 3) := by omega
  have c7 : ¬ (b2.val < 0x80 ∨ 0xBF < b2.val) := by omega
  have c8 : ¬ (b3.val < 0x80 ∨ 0xBF < b3.val) := by omega
  simp only [decodeRune, c1, c2, hs, c3, c4, c5, c6, c7, c8, if_false, if_true]

theorem decodeRune_inv (b : Byte) (rest : Bytes) (hb : ¬ b.val < 0x80)
    (hok : ¬ ((decodeRune (b :: rest)).1 = RuneError ∧ (decodeRune (b :: rest)).2 = 1)) :
    (∃ b1 t, rest = b1 :: t ∧ 0xC2 ≤ b.val ∧ b.val < 0xE0 ∧ 0x80 ≤ b1.val
        ∧ b1.val ≤ 0xBF)
    ∨ (∃ b1 b2 t, rest = b1 :: b2 :: t ∧ 0xE0 ≤ b.val ∧ b.val < 0xF0
        ∧ acceptLo b ≤ b1.val ∧ b1.val ≤ acceptHi b ∧ 0x80 ≤ b2.val ∧ b2.val ≤ 0xBF)
    ∨ (∃ b1 b2 b3 t, rest = b1 :: b2 :: b3 :: t ∧ 0xF0 ≤ b.val ∧ b.val ≤ 0xF4
        ∧ acceptLo b ≤ b1.val ∧ b1.val ≤ acceptHi b ∧ 0x80 ≤ b2.val ∧ b2.val ≤ 0xBF
        ∧ 0x80 ≤ b3.val ∧ b3.val ≤ 0xBF) := by
  have hlo := acceptLo_ge b
  have hhi := acceptHi_le b
  by_cases c2 : b.val < 0xC2 ∨ 0xF4 < b.val
  · exact absurd (by simp [decodeRune, hb, c2]) hok
  cases rest with
  | nil => exact absurd (by simp [decodeRune, hb, c2]) hok
  | cons b1 rest1 =>
    by_cases c4 : b1.val < acceptLo b ∨ acceptHi b < b1.val
    · refine absurd ?_ hok
      simp only [decodeRune, hb, c2, c4, if_false, if_true]
      split_ifs <;> exact ⟨rfl, rfl⟩
    by_cases c3 : b.val < 0xE0
    · left
      exact ⟨b1, rest1, rfl, by omega, c3, by omega, by omega⟩
    have hs2 : ¬ (runeSize b ≤ 2) := by unfold runeSize; split_ifs <;> omega
    cases rest1 with
    | nil =>
      refine absurd ?_ hok
      simp only [decodeRune, hb, c2, c4, hs2, if_false, if_true]
      split_ifs <;> exact ⟨rfl, rfl⟩
    | cons b2 rest2 =>
      by_cases c7 : b2.val < 0x80 ∨ 0xBF < b2.val
      · refine absurd ?_ hok
        simp only [decodeRune, hb, c2, c4, hs2, c7, if_false, if_true]
        split_ifs <;> exact ⟨rfl, rfl⟩
      by_cases c5 : b.val < 0xF0
      · right; left
        exact ⟨b1, b2, rest2, rfl, by omega, c5, by omega, by omega, by omega, by omega⟩
      have hs3 : ¬ (runeSize b ≤ 3) := by unfold runeSize; split_ifs; omega
      cases rest2 with
      | nil =>
        refine absurd ?_ hok
        simp only [decodeRune, hb, c2, c4, hs2, hs3, c7, if_false, if_true]
        split_ifs <;> exact ⟨rfl, rfl⟩
      | cons b3 rest3 =>
        by_cases c8 : b3.val < 0x80 ∨ 0xBF < b3.val
        · refine absurd ?_ hok
          simp only [decodeRune, hb, c2, c4, hs2, hs3, c7, c8, if_false, if_true]
          split_ifs <;> exact ⟨rfl, rfl⟩
        right; right
        exact ⟨b1, b2, b3, rest3, rfl, by omega, by omega, by omega, by omega, by omega, by omega,
          by omega, by omega⟩


theorem encodeRune_two (b b1 : Byte) (h0 : 0xC2 ≤ b.val) (h1 : b.val < 0xE0)
    (h2 : 0x80 ≤ b1.val) (h3 : b1.val ≤ 0xBF) :
    encodeRune (b.val % 32 * 64 + b1.val % 64) = [b, b1] := by
  have c1 : ¬ (b.val % 32 * 64 + b1.val % 64 ≤ 0x7F) := by omega
  have c2 : b.val % 32 * 64 + b1.val % 64 ≤ 0x7FF := by omega
  rw [encodeRune, if_neg c1, if_pos c2]
  rw [byte_eq b _ (by omega), byte_eq b1 _ (by omega)]

theorem encodeRune_three (b b1 b2 : Byte) (h0 : 0xE0 ≤ b.val) (h1 : b.val < 0xF0)
    (h2 : acceptLo b ≤ b1.val) (h3 : b1.val ≤ acceptHi b)
    (h4 : 0x80 ≤ b2.val) (h5 : b2.val ≤ 0xBF) :
    encodeRune (b.val % 16 * 4096 + b1.val % 64 * 64 + b2.val % 64) = [b, b1, b2] := by
  have hlo := acceptLo_ge b
  have hhi := acceptHi_le b
  have hlo0 : b.val = 0xE0 → 0xA0 ≤ b1.val := by
    intro h; simp [acceptLo, h] at h2; exact h2
  have hhiD : b.val = 0xED → b1.val ≤ 0x9F := by
    intro h; simp [acceptHi, h] at h3; exact h3
  have c1 : ¬ (b.val % 16 * 4096 + b1.val % 64 * 64 + b2.val % 64 ≤ 0x7F) := by omega
  have c2 : ¬ (b.val % 16 * 4096 + b1.val % 64 * 64 + b2.val % 64 ≤ 0x7FF) := by omega
  have c3 : ¬ (0x10FFFF < b.val % 16 * 4096 + b1.val % 64 * 64 + b2.val % 64
      ∨ (0xD800 ≤ b.val % 16 * 4096 + b1.val % 64 * 64 + b2.val % 64
        ∧ b.val % 16 * 4096 + b1.val % 64 * 64 + b2.val % 64 ≤ 0xDFFF)) := by omega
  have c4 : b.val % 16 * 4096 + b1.val % 64 * 64 + b2.val % 64 ≤ 0xFFFF := by omega
  rw [encodeRune, if_neg c1, if_neg c2, if_neg c3, if_pos c4]
  rw [byte_eq b _ (by omega), byte_eq b1 _ (by omega), byte_eq b2 _ (by omega)]

theorem encodeRune_four (b b1 b2 b3 : Byte) (h0 : 0xF0 ≤ b.val) (h1 : b.val ≤ 0xF4)
    (h2 : acceptLo b ≤ b1.val) (h3 : b1.val ≤ acceptHi b)
    (h4 : 0x80 ≤ b2.val) (h5 : b2.val ≤ 0xBF) (h6 : 0x80 ≤ b3.val) (h7 : b3.val ≤ 0xBF) :
    encodeRune (b.val % 8 * 262144 + b1.val % 64 * 4096 + b2.val % 64 * 64 + b3.val % 64)
      = [b, b1, b2, b3] := by
  have hlo := acceptLo_ge b
  have hhi := acceptHi_le b
  have hlo0 : b.val = 0xF0 → 0x90 ≤ b1.val := by
    intro h; simp [acceptLo, h] at h2; exact h2
  have hhi4 : b.val = 0xF4 → b1.val ≤ 0x8F := by
    intro h; simp [acceptHi, h] at h3; exact h3
  have c1 : ¬ (b.val % 8 * 262144 + b1.val % 64 * 4096 + b2.val % 64 * 64 + b3.val % 64
      ≤ 0x7F) := by omega
  have c2 : ¬ (b.val % 8 * 262144 + b1.val % 64 * 4096 + b2.val % 64 * 64 + b3.val % 64
      ≤ 0x7FF) := by omega
  have c3 : ¬ (0x10FFFF < b.val % 8 * 262144 + b1.val % 64 * 4096 + b2.val % 64 * 64
        + b3.val % 64
      ∨ (0xD800 ≤ b.val % 8 * 262144 + b1.val % 64 * 4096 + b2.val % 64 * 64 + b3.val % 64
        ∧ b.val % 8 * 262144 + b1.val % 64 * 4096 + b2.val % 64 * 64 + b3.val % 64
          ≤ 0xDFFF)) := by omega
  have c4 : ¬ (b.val % 8 * 262144 + b1.val % 64 * 4096 + b2.val % 64 * 64 + b3.val % 64
      ≤ 0xFFFF) := by omega
  rw [encodeRune, if_neg c1, if_neg c2, if_neg c3, if_neg c4]
  rw [byte_eq b _ (by omega), byte_eq b1 _ (by omega), byte_eq b2 _ (by omega),
    byte_eq b3 _ (by omega)]

/-- What a successful multi-byte decoding step looks like: the input starts
with the encoding `pre` of the rune, which `encodeRune` gives back and which
decodes to the same rune whatever follows it. -/
theorem decodeRune_multibyte (b : Byte) (rest : Bytes) (hb : ¬ b.val < 0x80)
    (hok : ¬ ((decodeRune (b :: rest)).1 = RuneError ∧ (decodeRune (b :: rest)).2 = 1)) :
    ∃ pre post : Bytes, b :: rest = b :: pre ++ post
      ∧ (b :: pre).length = (decodeRune (b :: rest)).2
      ∧ encodeRune (decodeRune (b :: rest)).1 = b :: pre
      ∧ (∀ t : Bytes, decodeRune (b :: pre ++ t) = decodeRune (b :: rest))
      ∧ 0x80 ≤ (decodeRune (b :: rest)).1 := by
  rcases decodeRune_inv b rest hb hok with
    ⟨b1, t, rfl, h0, h1, h2, h3⟩ | ⟨b1, b2, t, rfl, h0, h1, h2, h3, h4, h5⟩
    | ⟨b1, b2, b3, t, rfl, h0, h1, h2, h3, h4, h5, h6, h7⟩
  · refine ⟨[b1], t, rfl, ?_, ?_, ?_, ?_⟩
    · rw [decodeRune_two b b1 t h0 h1 h2 h3]; rfl
    · rw [decodeRune_two b b1 t h0 h1 h2 h3]; exact encodeRune_two b b1 h0 h1 h2 h3
    · intro t2
      rw [decodeRune_two b b1 t h0 h1 h2 h3]
      exact decodeRune_two b b1 t2 h0 h1 h2 h3
    · rw [decodeRune_two b b1 t h0 h1 h2 h3]
      show 0x80 ≤ b.val % 32 * 64 + b1.val % 64
      omega
  · have hlo0 : b.val = 0xE0 → 0xA0 ≤ b1.val := by
      intro h; simp [acceptLo, h] at h2; exact h2
    have hhi := acceptHi_le b
    refine ⟨[b1, b2], t, rfl, ?_, ?_, ?_, ?_⟩
    · rw [decodeRune_three b b1 b2 t h0 h1 h2 h3 h4 h5]; rfl
    · rw [decodeRune_three b b1 b2 t h0 h1 h2 h3 h4 h5]
      exact encodeRune_three b b1 b2 h0 h1 h2 h3 h4 h5
    · intro t2
      rw [decodeRune_three b b1 b2 t h0 h1 h2 h3 h4 h5]
      exact decodeRune_three b b1 b2 t2 h0 h1 h2 h3 h4 h5
    · rw [decodeRune_three b b1 b2 t h0 h1 h2 h3 h4 h5]
      show 0x80 ≤ b.val % 16 * 4096 + b1.val % 64 * 64 + b2.val % 64
      omega
  · have hlo0 : b.val = 0xF0 → 0x90 ≤ b1.val := by
      intro h; simp [acceptLo, h] at h2; exact h2
    have hhi := acceptHi_le b
    refine ⟨[b1, b2, b3], t, rfl, ?_, ?_, ?_, ?_⟩
    · rw [decodeRune_four b b1 b2 b3 t h0 h1 h2 h3 h4 h5 h6 h7]; rfl
    · rw [decodeRune_four b b1 b2 b3 t h0 h1 h2 h3 h4 h5 h6 h7]
      exact encodeRune_four b b1 b2 b3 h0 h1 h2 h3 h4 h5 h6 h7
    · intro t2
      rw [decodeRune_four b b1 b2 b3 t h0 h1 h2 h3 h4 h5 h6 h7]
      exact decodeRune_four b b1 b2 b3 t2 h0 h1 h2 h3 h4 h5 h6 h7
    · rw [decodeRune_four b b1 b2 b3 t h0 h1 h2 h3 h4 h5 h6 h7]
      show 0x80 ≤ b.val % 8 * 262144 + b1.val % 64 * 4096 + b2.val % 64 * 64 + b3.val % 64
      omega


theorem stringLit_quote (g : Nat) (rest acc : Bytes) :
    stringLit (g + 1) (byte 0x22 :: rest) acc = some (acc, rest) := by
  simp [stringLit, byte_val]

theorem stringLit_plain (g : Nat) (c : Byte) (rest acc : Bytes) (h1 : 0x20 ≤ c.val)
    (h2 : c.val < 0x80) (h3 : c.val ≠ 0x22) (h4 : c.val ≠ 0x5C) :
    stringLit (g + 1) (c :: rest) acc = stringLit g rest (acc ++ [c]) := by
  have h5 : ¬ c.val < 0x20 := by omega
  simp only [stringLit, h3, h4, h5, h2, if_false, if_true]

theorem hexVal_hexDigit (n : Nat) (h : n < 16) : hexVal (hexDigit n) = some n := by
  unfold hexDigit
  by_cases h10 : n < 10
  · rw [if_pos h10]
    have hv : (byte (0x30 + n)).val = 0x30 + n := by rw [byte_val]; omega
    have c1 : 0x30 ≤ 0x30 + n ∧ 0x30 + n ≤ 0x39 := by omega
    rw [hexVal, hv, if_pos c1]
    simp
  · rw [if_neg h10]
    have hv : (byte (0x57 + n)).val = 0x57 + n := by rw [byte_val]; omega
    have c1 : ¬ (0x30 ≤ 0x57 + n ∧ 0x57 + n ≤ 0x39) := by omega
    have c2 : 0x61 ≤ 0x57 + n ∧ 0x57 + n ≤ 0x66 := by omega
    rw [hexVal, hv, if_neg c1, if_pos c2]
    congr 1
    omega

theorem hexVal_zero : hexVal (byte 0x30) = some 0 := by decide

theorem hexVal_two : hexVal (byte 0x32) = some 2 := by decide

theorem getu4_escape (a b c d : Nat) (ha : a < 16) (hb : b < 16) (hc : c < 16) (hd : d < 16)
    (rest : Bytes) :
    getu4 (byte 0x5C :: byte 0x75 :: hexDigit a :: hexDigit b :: hexDigit c :: hexDigit d :: rest)
      = some (((a * 16 + b) * 16 + c) * 16 + d) := by
  have h1 : (byte 0x5C).val = 0x5C ∧ (byte 0x75).val = 0x75 := ⟨rfl, rfl⟩
  simp only [getu4, h1, and_self, if_true, hexVal_hexDigit, ha, hb, hc, hd]

/-! ## JSON string literals -/

theorem encodeRune_ascii (b : Byte) (h : b.val < 0x80) : encodeRune b.val = [b] := by
  have c1 : b.val ≤ 0x7F := by omega
  rw [encodeRune, if_pos c1, byte_eq b _ rfl]

theorem hexDigit_zero : hexDigit 0 = byte 0x30 := by decide

theorem stringLit_backslash (g : Nat) (e : Byte) (rest acc : Bytes) :
    stringLit (g + 1) (byte 0x5C :: e :: rest) acc =
      if e.val = 0x22 ∨ e.val = 0x5C ∨ e.val = 0x2F then stringLit g rest (acc ++ [e])
      else if e.val = 0x62 then stringLit g rest (acc ++ [byte 0x08])
      else if e.val = 0x66 then stringLit g rest (acc ++ [byte 0x0C])
      else if e.val = 0x6E then stringLit g rest (acc ++ [byte 0x0A])
      else if e.val = 0x72 then stringLit g rest (acc ++ [byte 0x0D])
      else if e.val = 0x74 then stringLit g rest (acc ++ [byte 0x09])
      else if e.val = 0x75 then
        match getu4 (byte 0x5C :: e :: rest) with
        | none => none
        | some rr =>
          if 0xD800 ≤ rr ∧ rr < 0xE000 then
            if utf16DecodeRune rr (getu4 (rest.drop 4)) ≠ RuneError then
              stringLit g (rest.drop 10)
                (acc ++ encodeRune (utf16DecodeRune rr (getu4 (rest.drop 4))))
            else stringLit g (rest.drop 4) (acc ++ encodeRune RuneError)
          else stringLit g (rest.drop 4) (acc ++ encodeRune rr)
      else none := by
  have hq : (byte 0x5C).val = 0x5C := rfl
  have c1 : ¬ ((92 : Nat) = 34) := by decide
  rw [stringLit, hq, if_neg c1, if_pos rfl]

theorem stringLit_escapeByte (g : Nat) (b : Byte) (rest acc : Bytes) (h1 : b.val < 0x80) :
    stringLit (g + 1) (escapeByte b ++ rest) acc = stringLit g rest (acc ++ [b]) := by
  unfold escapeByte
  by_cases c1 : b.val = 0x5C ∨ b.val = 0x22
  · rw [if_pos c1]
    have c2 : b.val = 0x22 ∨ b.val = 0x5C ∨ b.val = 0x2F := by omega
    rw [List.cons_append, List.cons_append, List.nil_append, stringLit_backslash, if_pos c2]
  rw [if_neg c1]
  by_cases c8 : b.val = 0x08
  · rw [if_pos c8, List.cons_append, List.cons_append, List.nil_append, stringLit_backslash,
      byte_eq b _ c8.symm]
    simp [byte_val]
  rw [if_neg c8]
  by_cases cC : b.val = 0x0C
  · rw [if_pos cC, List.cons_append, List.cons_append, List.nil_append, stringLit_backslash,
      byte_eq b _ cC.symm]
    simp [byte_val]
  rw [if_neg cC]
  by_cases cA : b.val = 0x0A
  · rw [if_pos cA, List.cons_append, List.cons_append, List.nil_append, stringLit_backslash,
      byte_eq b _ cA.symm]
    simp [byte_val]
  rw [if_neg cA]
  by_cases cD : b.val = 0x0D
  · rw [if_pos cD, List.cons_append, List.cons_append, List.nil_append, stringLit_backslash,
      byte_eq b _ cD.symm]
    simp [byte_val]
  rw [if_neg cD]
  by_cases c9 : b.val = 0x09
  · rw [if_pos c9, List.cons_append, List.cons_append, List.nil_append, stringLit_backslash,
      byte_eq b _ c9.symm]
    simp [byte_val]
  rw [if_neg c9]
  have hg := getu4_escape 0 0 (b.val / 16) (b.val % 16) (by decide) (by decide) (by omega)
    (by omega) rest
  rw [hexDigit_zero] at hg
  have hval : ((0 * 16 + 0) * 16 + b.val / 16) * 16 + b.val % 16 = b.val := by omega
  rw [hval] at hg
  have hs : ¬ (0xD800 ≤ b.val ∧ b.val < 0xE000) := by omega
  simp only [List.cons_append, List.nil_append]
  rw [stringLit_backslash, hg]
  simp [byte_val, hs, encodeRune_ascii b h1]


theorem stringLit_multibyte (g : Nat) (b : Byte) (pre rest0 rest acc : Bytes)
    (hb : ¬ b.val < 0x80)
    (hlen : (b :: pre).length = (decodeRune (b :: rest0)).2)
    (henc : encodeRune (decodeRune (b :: rest0)).1 = b :: pre)
    (hdec : ∀ t : Bytes, decodeRune (b :: pre ++ t) = decodeRune (b :: rest0)) :
    stringLit (g + 1) (b :: pre ++ rest) acc = stringLit g rest (acc ++ b :: pre) := by
  have c1 : ¬ b.val = 0x22 := by omega
  have c2 : ¬ b.val = 0x5C := by omega
  have c3 : ¬ b.val < 0x20 := by omega
  have hd : (b :: (pre ++ rest)).drop (decodeRune (b :: rest0)).2 = rest := by
    rw [← hlen, ← List.cons_append, List.drop_left]
  have hd2 := hdec rest
  rw [List.cons_append] at hd2
  rw [List.cons_append]
  generalize pre ++ rest = xs at hd hd2
  simp only [stringLit, c1, c2, c3, hb, if_false, hd2, henc, hd]

theorem hexDigit_two : hexDigit 2 = byte 0x32 := by decide

theorem stringLit_lineSeparator (g : Nat) (r : Nat) (rest acc : Bytes)
    (hr : r = 0x2028 ∨ r = 0x2029) :
    stringLit (g + 1) (ascii "\\u202" ++ [hexDigit (r % 16)] ++ rest) acc
      = stringLit g rest (acc ++ encodeRune r) := by
  have ha : ascii "\\u202" = [byte 0x5C, byte 0x75, byte 0x32, byte 0x30, byte 0x32] := by
    decide
  have hg := getu4_escape 2 0 2 (r % 16) (by decide) (by decide) (by decide) (by omega) rest
  rw [hexDigit_zero, hexDigit_two] at hg
  have hval : ((2 * 16 + 0) * 16 + 2) * 16 + r % 16 = r := by omega
  rw [hval] at hg
  have hs : ¬ (0xD800 ≤ r ∧ r < 0xE000) := by omega
  rw [ha]
  simp only [List.cons_append, List.nil_append]
  rw [stringLit_backslash, hg]
  simp [byte_val, hs]

theorem appendStringLoop_nil (f : Nat) : appendStringLoop f [] = [] := by
  cases f <;> rfl

theorem validUTF8Loop_cons (f : Nat) (b : Byte) (rest : Bytes)
    (h : validUTF8Loop f (b :: rest) = true) :
    ∃ f1, f = f1 + 1
      ∧ ¬ ((decodeRune (b :: rest)).1 = RuneError ∧ (decodeRune (b :: rest)).2 = 1)
      ∧ validUTF8Loop f1 ((b :: rest).drop (decodeRune (b :: rest)).2) = true := by
  cases f with
  | zero => simp [validUTF8Loop] at h
  | succ f1 =>
    refine ⟨f1, rfl, ?_⟩
    rw [validUTF8Loop] at h
    by_cases c : (decodeRune (b :: rest)).1 = RuneError ∧ (decodeRune (b :: rest)).2 = 1
    · rw [if_pos c] at h
      exact absurd h (by simp)
    · rw [if_neg c] at h
      exact ⟨c, h⟩

theorem escapeByte_length (b : Byte) : 1 ≤ (escapeByte b).length := by
  unfold escapeByte
  split_ifs <;> simp

theorem stringLit_appendStringLoop (f : Nat) : ∀ s : Bytes, validUTF8Loop f s = true →
    ∀ (g : Nat) (acc rest : Bytes), (appendStringLoop f s).length + 1 ≤ g →
      stringLit g (appendStringLoop f s ++ byte 0x22 :: rest) acc = some (acc ++ s, rest) := by
  induction f with
  | zero =>
    intro s hs g acc rest hg
    cases s with
    | nil =>
      obtain ⟨g1, rfl⟩ : ∃ g1, g = g1 + 1 := ⟨g - 1, by omega⟩
      simp [appendStringLoop, stringLit_quote]
    | cons b rest0 => simp [validUTF8Loop] at hs
  | succ f ih =>
    intro s hs g acc rest hg
    cases s with
    | nil =>
      obtain ⟨g1, rfl⟩ : ∃ g1, g = g1 + 1 := ⟨g - 1, by omega⟩
      simp [appendStringLoop, stringLit_quote]
    | cons b rest0 =>
      obtain ⟨f1, hf1, hok, hrest⟩ := validUTF8Loop_cons _ b rest0 hs
      have hf : f1 = f := by omega
      subst hf
      obtain ⟨g1, rfl⟩ : ∃ g1, g = g1 + 1 := ⟨g - 1, by omega⟩
      rw [appendStringLoop] at hg ⊢
      by_cases hb : b.val < 0x80
      · rw [decodeRune_ascii b rest0 hb] at hrest
        simp only [List.drop_succ_cons, List.drop_zero] at hrest
        rw [if_pos hb] at hg ⊢
        by_cases hsafe : htmlSafe b = true
        · rw [if_pos hsafe] at hg ⊢
          simp only [htmlSafe, decide_eq_true_eq] at hsafe
          simp only [List.cons_append, List.nil_append, List.length_cons] at hg ⊢
          rw [stringLit_plain g1 b _ acc (by omega) hb (by omega) (by omega)]
          rw [ih rest0 hrest g1 _ rest (by omega)]
          simp
        · rw [if_neg hsafe] at hg ⊢
          have hl := escapeByte_length b
          rw [List.length_append] at hg
          rw [List.append_assoc, stringLit_escapeByte g1 b _ acc hb]
          rw [ih rest0 hrest g1 _ rest (by omega)]
          simp
      · rw [if_neg hb, if_neg hok] at hg ⊢
        obtain ⟨pre, post, hsplit, hlen, henc, hdec, hge⟩ := decodeRune_multibyte b rest0 hb hok
        have hdrop : (b :: rest0).drop (decodeRune (b :: rest0)).2 = post := by
          rw [← hlen, hsplit, List.drop_left]
        have htake : (b :: rest0).take (decodeRune (b :: rest0)).2 = b :: pre := by
          rw [← hlen, hsplit, List.take_left]
        rw [hdrop] at hrest hg ⊢
        by_cases hls : (decodeRune (b :: rest0)).1 = 0x2028 ∨ (decodeRune (b :: rest0)).1 = 0x2029
        · rw [if_pos hls] at hg ⊢
          rw [List.length_append] at hg
          have hl : 1 ≤ (ascii "\\u202"
              ++ [hexDigit ((decodeRune (b :: rest0)).1 % 16)]).length := by
            simp
          rw [List.append_assoc, stringLit_lineSeparator g1 _ _ acc hls, henc]
          rw [ih post hrest g1 _ rest (by omega)]
          rw [hsplit]
          simp
        · rw [if_neg hls, htake] at hg ⊢
          rw [List.length_append] at hg
          simp only [List.length_cons] at hg
          rw [List.append_assoc, stringLit_multibyte g1 b pre rest0 _ acc hb hlen henc hdec]
          rw [ih post hrest g1 _ rest (by omega)]
          rw [hsplit]
          simp

/-! ## JSON objects -/

theorem appendString_append (s rest : Bytes) :
    appendString s ++ rest = byte 0x22 :: (appendStringLoop s.length s ++ byte 0x22 :: rest) := by
  simp [appendString]

theorem skipSpace_cons (c : Byte) (rest : Bytes) (h : isSpace c = false) :
    skipSpace (c :: rest) = c :: rest := by
  simp [skipSpace, h]

theorem skipSpace_appendString (s rest : Bytes) :
    skipSpace (appendString s ++ rest) = appendString s ++ rest := by
  rw [appendString_append]
  exact skipSpace_cons _ _ (by decide)

theorem stringLit_appendString (s rest : Bytes) (hs : validUTF8 s = true) :
    stringLit ((appendStringLoop s.length s ++ byte 0x22 :: rest).length + 1)
      (appendStringLoop s.length s ++ byte 0x22 :: rest) [] = some (s, rest) := by
  have h := stringLit_appendStringLoop s.length s hs
    ((appendStringLoop s.length s ++ byte 0x22 :: rest).length + 1) [] rest
    (by rw [List.length_append]; omega)
  simpa using h

theorem value_appendString (d : Nat) (s rest : Bytes) (hs : validUTF8 s = true) :
    value d (appendString s ++ rest) = some (Item.str s, rest) := by
  rw [appendString_append]
  have hq : (byte 0x22).val = 0x22 := rfl
  cases d <;> simp only [value, hq, if_true, stringLit_appendString s rest hs]

theorem members_step (pv : Bytes → Option (Item × Bytes)) (f : Nat) (k v : Bytes) (c : Byte)
    (rest : Bytes) (hk : validUTF8 k = true)
    (hpv : pv (appendString v ++ c :: rest) = some (Item.str v, c :: rest))
    (hc : isSpace c = false) :
    members pv (f + 1) (appendString k ++ byte 0x3A :: (appendString v ++ c :: rest)) =
      if c.val = 0x2C then
        match members pv f (skipSpace rest) with
        | none => none
        | some (ms, rest5) => some ((k, Item.str v) :: ms, rest5)
      else if c.val = 0x7D then some ([(k, Item.str v)], rest)
      else none := by
  have hq : (byte 0x22).val = 0x22 := rfl
  have hcolon : (byte 0x3A).val = 0x3A := rfl
  rw [appendString_append, members]
  simp only [hq, if_true]
  rw [stringLit_appendString k _ hk]
  simp only
  rw [skipSpace_cons _ _ (by decide)]
  simp only [hcolon, if_true]
  rw [skipSpace_appendString, hpv]
  simp only
  rw [skipSpace_cons _ _ hc]

theorem decodeMembers_fields (u v0 : User) :
    decodeMembers
      [(ascii "Username", Item.str u.Username), (ascii "MobileID", Item.str u.MobileID),
       (ascii "Email", Item.str u.Email), (ascii "FirstName", Item.str u.FirstName),
       (ascii "LastName", Item.str u.LastName)] v0 none = (u, none) := by
  have h : findField (ascii "Username") = some 0 ∧ findField (ascii "MobileID") = some 1
    ∧ findField (ascii "Email") = some 2 ∧ findField (ascii "FirstName") = some 3
    ∧ findField (ascii "LastName") = some 4 := by decide
  obtain ⟨h1, h2, h3, h4, h5⟩ := h
  simp [decodeMembers, h1, h2, h3, h4, h5, setField]

theorem fuel_five (xs : Bytes) (h : 4 ≤ xs.length) : ∃ f, xs.length + 1 = f + 5 :=
  ⟨xs.length - 4, by omega⟩

theorem findField_names :
    findField (ascii "Username") = some 0 ∧ findField (ascii "MobileID") = some 1
    ∧ findField (ascii "Email") = some 2 ∧ findField (ascii "FirstName") = some 3
    ∧ findField (ascii "LastName") = some 4 := by
  decide

theorem names_valid :
    validUTF8 (ascii "Username") = true ∧ validUTF8 (ascii "MobileID") = true
    ∧ validUTF8 (ascii "Email") = true ∧ validUTF8 (ascii "FirstName") = true
    ∧ validUTF8 (ascii "LastName") = true := by
  decide

theorem jsonMarshal_eq (u : User) :
    (jsonMarshal u).1 = byte 0x7B ::
      (appendString (ascii "Username") ++ byte 0x3A :: (appendString u.Username ++ byte 0x2C ::
      (appendString (ascii "MobileID") ++ byte 0x3A :: (appendString u.MobileID ++ byte 0x2C ::
      (appendString (ascii "Email") ++ byte 0x3A :: (appendString u.Email ++ byte 0x2C ::
      (appendString (ascii "FirstName") ++ byte 0x3A :: (appendString u.FirstName ++ byte 0x2C ::
      (appendString (ascii "LastName") ++ byte 0x3A :: (appendString u.LastName ++ byte 0x7D ::
        [])))))))))) := by
  have h1 : ascii "\x7b\"Username\":"
      = byte 0x7B :: (appendString (ascii "Username") ++ [byte 0x3A]) := by decide
  have h2 : ascii ",\"MobileID\":"
      = byte 0x2C :: (appendString (ascii "MobileID") ++ [byte 0x3A]) := by decide
  have h3 : ascii ",\"Email\":"
      = byte 0x2C :: (appendString (ascii "Email") ++ [byte 0x3A]) := by decide
  have h4 : ascii ",\"FirstName\":"
      = byte 0x2C :: (appendString (ascii "FirstName") ++ [byte 0x3A]) := by decide
  have h5 : ascii ",\"LastName\":"
      = byte 0x2C :: (appendString (ascii "LastName") ++ [byte 0x3A]) := by decide
  have h6 : ascii "\x7d" = [byte 0x7D] := by decide
  simp only [jsonMarshal, h1, h2, h3, h4, h5, h6, List.append_assoc, List.cons_append,
    List.nil_append]

theorem parseTop_jsonMarshal (u : User) (hu : u.validUTF8 = true) :
    parseTop (jsonMarshal u).1 = some (Top.object
      [(ascii "Username", Item.str u.Username), (ascii "MobileID", Item.str u.MobileID),
       (ascii "Email", Item.str u.Email), (ascii "FirstName", Item.str u.FirstName),
       (ascii "LastName", Item.str u.LastName)]) := by
  simp only [User.validUTF8, Bool.and_eq_true] at hu
  obtain ⟨⟨⟨⟨hu1, hu2⟩, hu3⟩, hu4⟩, hu5⟩ := hu
  obtain ⟨hn1, hn2, hn3, hn4, hn5⟩ := names_valid
  have hcomma : isSpace (byte 0x2C) = false := by decide
  have hbrace : isSpace (byte 0x7D) = false := by decide
  have hc1 : (byte 0x2C).val = 0x2C := rfl
  have hc2 : (byte 0x7D).val = 0x7D := rfl
  have hc3 : ¬ ((byte 0x7D).val = 0x2C) := by decide
  rw [jsonMarshal_eq, parseTop, skipSpace_cons _ _ (by decide)]
  have hb : (byte 0x7B).val = 0x7B := rfl
  simp only [hb, if_true]
  rw [objectBody, skipSpace_appendString]
  rw [appendString_append]
  have hq : ¬ ((byte 0x22).val = 0x7D) := by decide
  simp only [hq, if_false]
  rw [← appendString_append]
  obtain ⟨f, hf⟩ := fuel_five (appendStringLoop (ascii "Username").length (ascii "Username")
      ++ byte 0x22 :: byte 0x3A :: (appendString u.Username ++ byte 0x2C ::
      (appendString (ascii "MobileID") ++ byte 0x3A :: (appendString u.MobileID ++ byte 0x2C ::
      (appendString (ascii "Email") ++ byte 0x3A :: (appendString u.Email ++ byte 0x2C ::
      (appendString (ascii "FirstName") ++ byte 0x3A :: (appendString u.FirstName ++ byte 0x2C ::
      (appendString (ascii "LastName") ++ byte 0x3A :: (appendString u.LastName ++ byte 0x7D ::
        []))))))))))
    (by simp only [List.length_append, List.length_cons]; omega)
  rw [hf]
  rw [members_step _ _ _ _ _ _ hn1 (value_appendString _ _ _ hu1) hcomma, if_pos hc1,
    skipSpace_appendString]
  rw [members_step _ _ _ _ _ _ hn2 (value_appendString _ _ _ hu2) hcomma, if_pos hc1,
    skipSpace_appendString]
  rw [members_step _ _ _ _ _ _ hn3 (value_appendString _ _ _ hu3) hcomma, if_pos hc1,
    skipSpace_appendString]
  rw [members_step _ _ _ _ _ _ hn4 (value_appendString _ _ _ hu4) hcomma, if_pos hc1,
    skipSpace_appendString]
  rw [members_step _ _ _ _ _ _ hn5 (value_appendString _ _ _ hu5) hbrace, if_neg hc3, if_pos hc2]
  simp [skipSpace]


theorem jsonUnmarshal_jsonMarshal (u v0 : User) (hu : u.validUTF8 = true) :
    jsonUnmarshal (jsonMarshal u).1 v0 = (u, none) := by
  rw [jsonUnmarshal, parseTop_jsonMarshal u hu]
  exact decodeMembers_fields u v0

/-! ## strconv -/

theorem parseUintLoop_digit (d : Nat) (hd : d < 10) (acc : Bytes) (n : Nat)
    (hn : n * 10 + d < 2 ^ 64) :
    parseUintLoop (byte (0x30 + d) :: acc) n = parseUintLoop acc (n * 10 + d) := by
  have hv : (byte (0x30 + d)).val = 0x30 + d := by rw [byte_val]; omega
  rw [parseUintLoop, hv]
  have h1 : 0x30 ≤ 0x30 + d ∧ 0x30 + d ≤ 0x39 := by omega
  have h2 : ¬ (2 ^ 64 ≤ n * 10 + (0x30 + d - 0x30)) := by
    rw [Nat.add_sub_cancel_left]; omega
  rw [if_pos h1, if_neg h2, Nat.add_sub_cancel_left]

theorem parseUintLoop_formatBits (f : Nat) : ∀ (u : Nat) (acc : Bytes), u ≤ f → u < 2 ^ 64 →
    parseUintLoop (formatBits f u acc) 0 = parseUintLoop acc u := by
  induction f with
  | zero =>
    intro u acc hu _
    have h0 : u = 0 := by omega
    subst h0
    simpa using parseUintLoop_digit 0 (by decide) acc 0 (by decide)
  | succ f ih =>
    intro u acc hu hlt
    rw [formatBits]
    by_cases h10 : 10 ≤ u
    · rw [if_pos h10, ih (u / 10) _ (by omega) (by omega)]
      have := parseUintLoop_digit (u % 10) (by omega) acc (u / 10) (by omega)
      rw [this]
      congr 1
      omega
    · rw [if_neg h10]
      simpa using parseUintLoop_digit u (by omega) acc 0 (by omega)

theorem formatBits_head (f : Nat) : ∀ (u : Nat) (acc : Bytes), u ≤ f →
    ∃ c cs, formatBits f u acc = c :: cs ∧ 0x30 ≤ c.val ∧ c.val ≤ 0x39 := by
  induction f with
  | zero =>
    intro u acc hu
    have h0 : u = 0 := by omega
    subst h0
    exact ⟨_, _, rfl, by decide, by decide⟩
  | succ f ih =>
    intro u acc hu
    rw [formatBits]
    by_cases h10 : 10 ≤ u
    · rw [if_pos h10]
      exact ih _ _ (by omega)
    · rw [if_neg h10]
      refine ⟨_, _, rfl, ?_, ?_⟩ <;> rw [byte_val] <;> omega

theorem parseUint_formatBits (u : Nat) (hlt : u < 2 ^ 64) :
    parseUint (formatBits u u []) = (u, none) := by
  obtain ⟨c, cs, hc, _⟩ := formatBits_head u u [] (le_refl u)
  have h := parseUintLoop_formatBits u u [] (le_refl u) hlt
  rw [hc] at h
  rw [hc, parseUint, h, parseUintLoop]

theorem parseInt_formatInt (i : Int) (h : isInt64 i) : parseInt (formatInt i) = (i, none) := by
  obtain ⟨hlo, hhi⟩ := h
  obtain ⟨c, cs, hc, hc1, hc2⟩ := formatBits_head i.natAbs i.natAbs [] (le_refl _)
  have hp := parseUint_formatBits i.natAbs (by omega)
  unfold formatInt
  by_cases hneg : i < 0
  · rw [if_pos hneg]
    have hb : (byte 0x2D).val = 0x2D := rfl
    have hle : ¬ ((2 : Nat) ^ 63 < i.natAbs) := by omega
    have hi : -(i.natAbs : Int) = i := by omega
    simp only [parseInt, hb, or_true, if_true, hp, decide_True, true_and, hle, if_false, hi,
      not_true_eq_false, false_and]
  · rw [if_neg hneg, hc]
    rw [hc] at hp
    have h3 : ¬ (c.val = 0x2B) := by omega
    have h2 : ¬ (c.val = 0x2D) := by omega
    have hle : ¬ ((2 : Nat) ^ 63 ≤ i.natAbs) := by omega
    have hi : (i.natAbs : Int) = i := by omega
    simp only [parseInt, h3, h2, or_false, if_false, hp, decide_False, false_and, hle, hi,
      Bool.false_eq_true, not_false_eq_true, true_and]

theorem parseUintLoop_not_digits (cs : Bytes) (n : Nat) (h : cs.all isDigit = false) :
    (parseUintLoop cs n).2 ≠ none := by
  induction cs generalizing n with
  | nil => simp at h
  | cons c cs ih =>
    unfold parseUintLoop
    by_cases hd : 0x30 ≤ c.val ∧ c.val ≤ 0x39
    · rw [if_pos hd]
      split
      · simp
      · apply ih
        simp only [List.all_cons, Bool.and_eq_false_imp] at h
        apply h
        simp [isDigit, hd]
    · rw [if_neg hd]
      simp

theorem parseUintLoop_range (cs : Bytes) (n : Nat)
    (h : (parseUintLoop cs n).2 = some NumErr.ErrRange) :
    (parseUintLoop cs n).1 = 2 ^ 64 - 1 := by
  induction cs generalizing n with
  | nil => simp [parseUintLoop] at h
  | cons c cs ih =>
    unfold parseUintLoop at h ⊢
    split
    · split
      · rfl
      · rename_i h1 h2
        rw [if_pos h1, if_neg h2] at h
        exact ih _ h
    · rename_i h1
      rw [if_neg h1] at h
      simp at h

theorem parseUint_error (cs : Bytes) (h : cs.isEmpty = true ∨ cs.all isDigit = false) :
    (parseUint cs).2 ≠ none := by
  cases cs with
  | nil => simp [parseUint]
  | cons c cs =>
    rcases h with h | h
    · simp at h
    · exact parseUintLoop_not_digits _ 0 h

theorem parseUint_range (cs : Bytes) (h : (parseUint cs).2 = some NumErr.ErrRange) :
    (parseUint cs).1 = 2 ^ 64 - 1 := by
  cases cs with
  | nil => simp [parseUint] at h
  | cons c cs => exact parseUintLoop_range _ 0 h

theorem parseInt_of_parseUint_error (c : Byte) (cs : Bytes)
    (h : (parseUint (if c.val = 0x2B ∨ c.val = 0x2D then cs else c :: cs)).2 ≠ none) :
    (parseInt (c :: cs)).2 ≠ none := by
  have hr := parseUint_range (if c.val = 0x2B ∨ c.val = 0x2D then cs else c :: cs)
  rcases hp : parseUint (if c.val = 0x2B ∨ c.val = 0x2D then cs else c :: cs) with ⟨un, err⟩
  rw [hp] at h hr
  cases err with
  | none => exact absurd rfl h
  | some e =>
    cases e with
    | ErrSyntax => simp [parseInt, hp]
    | ErrRange =>
      have hun : un = 2 ^ 64 - 1 := hr rfl
      subst hun
      simp only [parseInt]
      rw [hp]
      by_cases hneg : c.val = 0x2D <;> simp [hneg]

theorem parseInt_error (t : Bytes) (h : decimalSyntax t = false) : (parseInt t).2 ≠ none := by
  cases t with
  | nil => simp [parseInt]
  | cons c cs =>
    apply parseInt_of_parseUint_error
    apply parseUint_error
    simp only [decimalSyntax] at h
    by_cases hs : c.val = 0x2B ∨ c.val = 0x2D
    · rw [if_pos hs] at h ⊢
      simp only [Bool.and_eq_false_imp, Bool.not_eq_true'] at h
      by_cases he : cs.isEmpty = true
      · exact Or.inl he
      · exact Or.inr (h (by simpa using he))
    · rw [if_neg hs] at h ⊢
      exact Or.inr h

theorem digitsValue_ge (cs : Bytes) (n : Nat) : n ≤ digitsValue cs n := by
  induction cs generalizing n with
  | nil => exact le_refl n
  | cons c cs ih =>
    have := ih (n * 10 + (c.val - 0x30))
    simp only [digitsValue]
    omega

theorem parseUintLoop_digits (cs : Bytes) (n : Nat) (hn : n < 2 ^ 64)
    (h : cs.all isDigit = true) :
    parseUintLoop cs n =
      if digitsValue cs n < 2 ^ 64 then (digitsValue cs n, none)
      else (2 ^ 64 - 1, some NumErr.ErrRange) := by
  induction cs generalizing n with
  | nil => simp only [parseUintLoop, digitsValue, if_pos hn]
  | cons c cs ih =>
    simp only [List.all_cons, Bool.and_eq_true] at h
    obtain ⟨hc, hcs⟩ := h
    have hd : 0x30 ≤ c.val ∧ c.val ≤ 0x39 := by simpa [isDigit] using hc
    rw [parseUintLoop, if_pos hd, digitsValue]
    by_cases hov : 2 ^ 64 ≤ n * 10 + (c.val - 0x30)
    · rw [if_pos hov]
      have := digitsValue_ge cs (n * 10 + (c.val - 0x30))
      rw [if_neg (by omega)]
    · rw [if_neg hov, ih _ (by omega) hcs]

theorem parseUint_digits (c : Byte) (cs : Bytes) (h : (c :: cs).all isDigit = true) :
    parseUint (c :: cs) =
      if digitsValue (c :: cs) 0 < 2 ^ 64 then (digitsValue (c :: cs) 0, none)
      else (2 ^ 64 - 1, some NumErr.ErrRange) := by
  rw [parseUint, parseUintLoop_digits (c :: cs) 0 (by decide) h]

theorem parseInt_of_digits (c : Byte) (cs body : Bytes)
    (hb : body = if c.val = 0x2B ∨ c.val = 0x2D then cs else c :: cs)
    (hne : body ≠ []) (hd : body.all isDigit = true) :
    parseInt (c :: cs) =
      if c.val = 0x2D then
        (if digitsValue body 0 ≤ 2 ^ 63 then (-(digitsValue body 0 : Int), none)
         else (-(2 ^ 63), some NumErr.ErrRange))
      else
        (if digitsValue body 0 < 2 ^ 63 then ((digitsValue body 0 : Int), none)
         else (2 ^ 63 - 1, some NumErr.ErrRange)) := by
  simp only [parseInt, ← hb]
  cases body with
  | nil => exact absurd rfl hne
  | cons d ds =>
    rw [parseUint_digits d ds hd]
    by_cases h64 : digitsValue (d :: ds) 0 < 2 ^ 64
    · rw [if_pos h64]
      simp only [decide_eq_true_eq]
      split_ifs <;> first | rfl | omega
    · rw [if_neg h64]
      simp only [decide_eq_true_eq]
      split_ifs <;> first | rfl | omega


theorem spellsInt_iff (t : Bytes) :
    spellsInt t = true ↔
      decimalSyntax t = true ∧ -(2 ^ 63) ≤ decimalValue t ∧ decimalValue t < 2 ^ 63 := by
  simp only [spellsInt, Bool.and_eq_true, decide_eq_true_eq, and_assoc]

/-- The function `parseInt` succeeds exactly on the texts that spell a 64-bit
integer, and then returns that integer. -/
theorem parseInt_spec (t : Bytes) :
    ((parseInt t).2 = none ↔ spellsInt t = true)
    ∧ (spellsInt t = true → (parseInt t).1 = decimalValue t) := by
  by_cases hsyn : decimalSyntax t = true
  · cases t with
    | nil => simp [decimalSyntax] at hsyn
    | cons c cs =>
      have hbody : (if c.val = 0x2B ∨ c.val = 0x2D then cs else c :: cs) ≠ []
          ∧ (if c.val = 0x2B ∨ c.val = 0x2D then cs else c :: cs).all isDigit = true := by
        simp only [decimalSyntax] at hsyn
        by_cases hs : c.val = 0x2B ∨ c.val = 0x2D
        · rw [if_pos hs] at hsyn ⊢
          simp only [Bool.and_eq_true, Bool.not_eq_true'] at hsyn
          refine ⟨?_, hsyn.2⟩
          intro he
          rw [he] at hsyn
          simp at hsyn
        · rw [if_neg hs] at hsyn ⊢
          exact ⟨by simp, hsyn⟩
      have hp := parseInt_of_digits c cs _ rfl hbody.1 hbody.2
      have hv : decimalValue (c :: cs) =
          if c.val = 0x2D then
            -(digitsValue (if c.val = 0x2B ∨ c.val = 0x2D then cs else c :: cs) 0 : Int)
          else (digitsValue (if c.val = 0x2B ∨ c.val = 0x2D then cs else c :: cs) 0 : Int) := by
        simp only [decimalValue]
        split_ifs <;> first | rfl | omega
      rw [spellsInt_iff, hp, hv]
      generalize digitsValue (if c.val = 0x2B ∨ c.val = 0x2D then cs else c :: cs) 0 = dv
      by_cases hneg : c.val = 0x2D
      · simp only [hneg, if_true]
        by_cases h63 : dv ≤ 2 ^ 63
        · rw [if_pos h63]
          exact ⟨⟨fun _ => ⟨hsyn, by omega, by omega⟩, fun _ => rfl⟩, fun _ => rfl⟩
        · rw [if_neg h63]
          refine ⟨⟨fun h => absurd h (by simp), fun h => ?_⟩, fun h => ?_⟩ <;>
            (exfalso; omega)
      · simp only [hneg, if_false]
        by_cases h63 : dv < 2 ^ 63
        · rw [if_pos h63]
          exact ⟨⟨fun _ => ⟨hsyn, by omega, by omega⟩, fun _ => rfl⟩, fun _ => rfl⟩
        · rw [if_neg h63]
          refine ⟨⟨fun h => absurd h (by simp), fun h => ?_⟩, fun h => ?_⟩ <;>
            (exfalso; omega)
  · have hne := parseInt_error t (by simpa using hsyn)
    have hsp : ¬ (spellsInt t = true) := by
      rw [spellsInt_iff]
      exact fun h => hsyn h.1
    exact ⟨⟨fun h => absurd h hne, fun h => absurd h hsp⟩, fun h => absurd h hsp⟩

/-! ## The model store -/

theorem Store.Do_accepting (data : Bytes → Option Bytes) (name : String) (args : List Arg) :
    Store.Do (accepting data) name args =
      ((Store.exec data name args).1, accepting (Store.exec data name args).2) := rfl

theorem Store.exec_set (data : Bytes → Option Bytes) (k v : Arg) :
    Store.exec data "SET" [k, v] = ((Reply.status (ascii "OK"), none),
      fun k1 => if k1 = argBytes k then some (argBytes v) else data k1) := rfl

theorem Store.exec_get (data : Bytes → Option Bytes) (k : Arg) :
    Store.exec data "GET" [k] =
      (((match data (argBytes k) with
        | some v => Reply.bulk v
        | none => Reply.nil), none), data) := by
  simp only [Store.exec]
  split <;> simp_all

/-! ## Round trips -/

/-- C1, as stated, fails: a `User` whose `Username` is the byte 0xFF, which is
not valid UTF-8, is written as the escape of U+FFFD and read back as the
three bytes of U+FFFD, so the record read differs from the one written. -/
theorem record_round_trip_fails_on_invalid_utf8 :
    latin1User.Username = [byte 0xFF]
    ∧ replacedUser.Username = [byte 0xEF, byte 0xBF, byte 0xBD]
    ∧ (setStructOf latin1User storeConn (start (accepting noData))).1 = none
    ∧ (getStructOf latin1User.Username storeConn
        (setStructOf latin1User storeConn (start (accepting noData))).2).1 = none
    ∧ (getStructOf latin1User.Username storeConn
        (setStructOf latin1User storeConn (start (accepting noData))).2).2.trace =
      [Event.marshal latin1User,
       Event.cmd "SET" [Arg.str ( objectPrefix ++ latin1User.Username),
         Arg.bytes (jsonMarshal latin1User).1],
       Event.cmd "GET" [Arg.str ( objectPrefix ++ latin1User.Username)],
       Event.unmarshal (jsonMarshal latin1User).1,
       Event.printf "%+v\n" [Val.user replacedUser]]
    ∧ ¬ (replacedUser = latin1User) := by
  decide

/-- C1, amended: for every `User` whose five fields are valid UTF-8 (empty
fields included) and every store that carries out its commands, writing the
record as `setStruct` does and reading it back as `getStruct` does succeeds
twice, and the record decoded and printed is the one written. -/
theorem record_round_trip (data : Bytes → Option Bytes) (user : User)
    (hu : user.validUTF8 = true) :
    (setStructOf user storeConn (start (accepting data))).1 = none
    ∧ (getStructOf user.Username storeConn
        (setStructOf user storeConn (start (accepting data))).2).1 = none
    ∧ (getStructOf user.Username storeConn
        (setStructOf user storeConn (start (accepting data))).2).2.trace =
      [Event.marshal user,
       Event.cmd "SET" [Arg.str ( objectPrefix ++ user.Username), Arg.bytes (jsonMarshal user).1],
       Event.cmd "GET" [Arg.str ( objectPrefix ++ user.Username)],
       Event.unmarshal (jsonMarshal user).1,
       Event.printf "%+v\n" [Val.user user]] := by
  have hrt := jsonUnmarshal_jsonMarshal user zeroUser hu
  refine ⟨?_, ?_, ?_⟩
  · rw [setStructOf_eq]
    simp [storeConn, start, Store.Do_accepting, Store.exec_set]
  · rw [setStructOf_eq]
    simp [getStructOf, doCmd, storeConn, start, Store.Do_accepting, Store.exec_set,
      Store.exec_get, argBytes, redisString]
  · rw [setStructOf_eq]
    simp [getStructOf, doCmd, storeConn, start, Store.Do_accepting, Store.exec_set,
      Store.exec_get, argBytes, redisString, World.emit, hrt]

/-- C1, amended, at the record hard-coded in `setStruct` on an empty store. -/
theorem record_round_trip_witness :
    (setStruct storeConn (start (accepting noData))).1 = none
    ∧ (getStruct storeConn (setStruct storeConn (start (accepting noData))).2).1 = none
    ∧ (getStruct storeConn (setStruct storeConn (start (accepting noData))).2).2.trace =
      [Event.marshal theUser,
       Event.cmd "SET" [Arg.str ( objectPrefix ++ theUser.Username),
         Arg.bytes (jsonMarshal theUser).1],
       Event.cmd "GET" [Arg.str ( objectPrefix ++ theUser.Username)],
       Event.unmarshal (jsonMarshal theUser).1,
       Event.printf "%+v\n" [Val.user theUser]] :=
  record_round_trip noData theUser (by decide)

/-- C2: on every store that carries out its commands, `set` followed by `get`
returns `nil` twice and `get` prints the values written, "Repo Man" under
"Favorite Movie" and 1984 under "Release Year"; and for every key, every
string and every 64-bit integer, a SET of the value followed by a GET of the
key is decoded by `redis.String`, respectively `redis.Int`, to the value
written, without error. -/
theorem scalar_round_trip (data : Bytes → Option Bytes) (key text : Bytes) (i : Int)
    (hi : isInt64 i) :
    (set storeConn (start (accepting data))).1 = none
    ∧ (get storeConn (set storeConn (start (accepting data))).2).1 = none
    ∧ (get storeConn (set storeConn (start (accepting data))).2).2.trace =
        (set storeConn (start (accepting data))).2.trace ++
        [Event.cmd "GET" [Arg.str (ascii "Favorite Movie")],
         Event.printf "%s = %s\n" [Val.str (ascii "Favorite Movie"), Val.str (ascii "Repo Man")],
         Event.cmd "GET" [Arg.str (ascii "Release Year")],
         Event.printf "%s = %d\n" [Val.str (ascii "Release Year"), Val.int 1984],
         Event.cmd "GET" [Arg.str (ascii "Nonexistent Key")],
         (match data (ascii "Nonexistent Key") with
          | none => Event.printf "%s does not exist\n" [Val.str (ascii "Nonexistent Key")]
          | some v => Event.printf "%s = %s\n" [Val.str (ascii "Nonexistent Key"), Val.str v])]
    ∧ redisString (storeConn.Do
        (storeConn.Do (accepting data) "SET" [Arg.str key, Arg.str text]).2
        "GET" [Arg.str key]).1 = (text, none)
    ∧ redisInt (storeConn.Do
        (storeConn.Do (accepting data) "SET" [Arg.str key, Arg.int i]).2
        "GET" [Arg.str key]).1 = (i, none) := by
  have hne1 : ascii "Favorite Movie" ≠ ascii "Release Year" := by decide
  have hne2 : ascii "Nonexistent Key" ≠ ascii "Release Year" := by decide
  have hne3 : ascii "Nonexistent Key" ≠ ascii "Favorite Movie" := by decide
  have h1984 : parseInt (formatInt 1984) = (1984, none) := by decide
  refine ⟨?_, ?_, ?_, ?_, ?_⟩
  · simp [set, doCmd, storeConn, start, Store.Do_accepting, Store.exec_set]
  · cases hnk : data (ascii "Nonexistent Key") <;>
    simp [set, get, doCmd, storeConn, start, Store.Do_accepting, Store.exec_set, Store.exec_get,
      argBytes, World.emit, redisString, redisInt, hne1, hne2, hne3, h1984, hnk]
  · cases hnk : data (ascii "Nonexistent Key") <;>
    simp [set, get, doCmd, storeConn, start, Store.Do_accepting, Store.exec_set, Store.exec_get,
      argBytes, World.emit, redisString, redisInt, hne1, hne2, hne3, h1984, hnk]
  · simp [storeConn, Store.Do_accepting, Store.exec_set, Store.exec_get, argBytes, redisString]
  · simp [storeConn, Store.Do_accepting, Store.exec_set, Store.exec_get, argBytes, redisInt,
      parseInt_formatInt i hi]

/-- C2 at the empty store and the two values `set` writes. -/
theorem scalar_round_trip_witness :
    (set storeConn (start (accepting noData))).1 = none
    ∧ (get storeConn (set storeConn (start (accepting noData))).2).1 = none
    ∧ (get storeConn (set storeConn (start (accepting noData))).2).2.trace =
        (set storeConn (start (accepting noData))).2.trace ++
        [Event.cmd "GET" [Arg.str (ascii "Favorite Movie")],
         Event.printf "%s = %s\n" [Val.str (ascii "Favorite Movie"), Val.str (ascii "Repo Man")],
         Event.cmd "GET" [Arg.str (ascii "Release Year")],
         Event.printf "%s = %d\n" [Val.str (ascii "Release Year"), Val.int 1984],
         Event.cmd "GET" [Arg.str (ascii "Nonexistent Key")],
         Event.printf "%s does not exist\n" [Val.str (ascii "Nonexistent Key")]]
    ∧ redisString (storeConn.Do
        (storeConn.Do (accepting noData) "SET"
          [Arg.str (ascii "Favorite Movie"), Arg.str (ascii "Repo Man")]).2
        "GET" [Arg.str (ascii "Favorite Movie")]).1 = (ascii "Repo Man", none)
    ∧ redisInt (storeConn.Do
        (storeConn.Do (accepting noData) "SET" [Arg.str (ascii "Release Year"), Arg.int 1984]).2
        "GET" [Arg.str (ascii "Release Year")]).1 = (1984, none) :=
  scalar_round_trip noData (ascii "Favorite Movie") (ascii "Repo Man") 1984
    ⟨by decide, by decide⟩

/-! ## Absent keys -/

/-- C3: when the GET of "user:coderminer.com" is answered with `nil` (the key
has no value, which `redis.String` reports as `redis.ErrNil`), `getStruct`
returns `nil` and the record it prints is the zero `User`, all five fields
empty. -/
theorem getStruct_absent_key {σ : Type} (c : Conn σ) (w : World σ) (s1 : σ)
    (h : c.Do w.conn "GET" [Arg.str (ascii "user:coderminer.com")] = ((Reply.nil, none), s1)) :
    redisString (Reply.nil, none) = ([], some Err.ErrNil)
    ∧ (getStruct c w).1 = none
    ∧ (getStruct c w).2.trace = w.trace ++
        [Event.cmd "GET" [Arg.str (ascii "user:coderminer.com")],
         Event.println "User does not exist",
         Event.unmarshal [],
         Event.printf "%+v\n" [Val.user zeroUser]]
    ∧ zeroUser
        = { Username := [], MobileID := [], Email := [], FirstName := [], LastName := [] } := by
  refine ⟨rfl, ?_, ?_, rfl⟩
  · simp [getStruct, getStructOf, doCmd, objectPrefix_identity, h, redisString]
  · simp [getStruct, getStructOf, doCmd, objectPrefix_identity, h, redisString, World.emit,
      jsonUnmarshal_empty]

/-- C3 at the empty store. -/
theorem getStruct_absent_key_witness :
    (getStruct storeConn (start (accepting noData))).1 = none
    ∧ (getStruct storeConn (start (accepting noData))).2.trace =
        [Event.cmd "GET" [Arg.str (ascii "user:coderminer.com")],
         Event.println "User does not exist",
         Event.unmarshal [],
         Event.printf "%+v\n" [Val.user zeroUser]] :=
  have h := getStruct_absent_key storeConn (start (accepting noData)) (accepting noData) rfl
  ⟨h.2.1, h.2.2.1⟩

/-- C4, as stated, fails: on a store in which none of "Favorite Movie",
"Release Year" and "Nonexistent Key" was written, `get` returns
`redis.ErrNil`, not `nil`. -/
theorem get_returns_ErrNil_on_empty_store :
    noData (ascii "Favorite Movie") = none
    ∧ noData (ascii "Release Year") = none
    ∧ noData (ascii "Nonexistent Key") = none
    ∧ (get storeConn (start (accepting noData))).1 = some Err.ErrNil := by
  decide

/-- C4, amended: an absent "Favorite Movie" or "Release Year" makes `get`
return `redis.ErrNil` without reading the later keys; an absent
"Nonexistent Key", the two reads before it having succeeded, is a normal
outcome: `get` prints that the key does not exist and returns `nil`. -/
theorem get_absent_keys {σ : Type} (c : Conn σ) (w : World σ) :
    (∀ s1 : σ, c.Do w.conn "GET" [Arg.str (ascii "Favorite Movie")] = ((Reply.nil, none), s1) →
      (get c w).1 = some Err.ErrNil ∧
      commands (get c w).2.trace = commands w.trace ++
        [("GET", [Arg.str (ascii "Favorite Movie")])])
    ∧ (∀ (s1 s2 : σ) (r1 : Reply) (v1 : Bytes),
      c.Do w.conn "GET" [Arg.str (ascii "Favorite Movie")] = ((r1, none), s1) →
      redisString (r1, none) = (v1, none) →
      c.Do s1 "GET" [Arg.str (ascii "Release Year")] = ((Reply.nil, none), s2) →
      (get c w).1 = some Err.ErrNil ∧
      commands (get c w).2.trace = commands w.trace ++
        [("GET", [Arg.str (ascii "Favorite Movie")]),
         ("GET", [Arg.str (ascii "Release Year")])])
    ∧ (∀ (s1 s2 s3 : σ) (r1 r2 : Reply) (v1 : Bytes) (v2 : Int),
      c.Do w.conn "GET" [Arg.str (ascii "Favorite Movie")] = ((r1, none), s1) →
      redisString (r1, none) = (v1, none) →
      c.Do s1 "GET" [Arg.str (ascii "Release Year")] = ((r2, none), s2) →
      redisInt (r2, none) = (v2, none) →
      c.Do s2 "GET" [Arg.str (ascii "Nonexistent Key")] = ((Reply.nil, none), s3) →
      (get c w).1 = none ∧
      (get c w).2.trace = w.trace ++
        [Event.cmd "GET" [Arg.str (ascii "Favorite Movie")],
         Event.printf "%s = %s\n" [Val.str (ascii "Favorite Movie"), Val.str v1],
         Event.cmd "GET" [Arg.str (ascii "Release Year")],
         Event.printf "%s = %d\n" [Val.str (ascii "Release Year"), Val.int v2],
         Event.cmd "GET" [Arg.str (ascii "Nonexistent Key")],
         Event.printf "%s does not exist\n" [Val.str (ascii "Nonexistent Key")]]) := by
  refine ⟨?_, ?_, ?_⟩
  · intro s1 h1
    simp [get, doCmd, h1, redisString, commands_append, commands]
  · intro s1 s2 r1 v1 h1 hv1 h2
    simp [get, doCmd, h1, hv1, h2, redisInt, World.emit, commands_append, commands]
  · intro s1 s2 s3 r1 r2 v1 v2 h1 hv1 h2 hv2 h3
    have hn : redisString (Reply.nil, none) = ([], some Err.ErrNil) := rfl
    simp [get, doCmd, h1, hv1, h2, hv2, h3, hn, World.emit]

/-- C4, amended, at the empty store, at a store holding only "Favorite Movie",
and at a store holding the two keys `set` writes. -/
theorem get_absent_keys_witness :
    ((get storeConn (start (accepting noData))).1 = some Err.ErrNil ∧
      commands (get storeConn (start (accepting noData))).2.trace =
        commands (start (accepting noData)).trace ++
        [("GET", [Arg.str (ascii "Favorite Movie")])])
    ∧ ((get storeConn (start (accepting movieOnly))).1 = some Err.ErrNil ∧
      commands (get storeConn (start (accepting movieOnly))).2.trace =
        commands (start (accepting movieOnly)).trace ++
        [("GET", [Arg.str (ascii "Favorite Movie")]),
         ("GET", [Arg.str (ascii "Release Year")])])
    ∧ ((get storeConn (start (accepting demoData))).1 = none ∧
      (get storeConn (start (accepting demoData))).2.trace =
        (start (accepting demoData)).trace ++
        [Event.cmd "GET" [Arg.str (ascii "Favorite Movie")],
         Event.printf "%s = %s\n" [Val.str (ascii "Favorite Movie"), Val.str (ascii "Repo Man")],
         Event.cmd "GET" [Arg.str (ascii "Release Year")],
         Event.printf "%s = %d\n" [Val.str (ascii "Release Year"), Val.int 1984],
         Event.cmd "GET" [Arg.str (ascii "Nonexistent Key")],
         Event.printf "%s does not exist\n" [Val.str (ascii "Nonexistent Key")]]) :=
  ⟨(get_absent_keys storeConn (start (accepting noData))).1 (accepting noData) rfl,
   (get_absent_keys storeConn (start (accepting movieOnly))).2.1 (accepting movieOnly)
     (accepting movieOnly) (Reply.bulk (ascii "Repo Man")) (ascii "Repo Man") rfl rfl rfl,
   (get_absent_keys storeConn (start (accepting demoData))).2.2 (accepting demoData)
     (accepting demoData) (accepting demoData) (Reply.bulk (ascii "Repo Man"))
     (Reply.bulk (ascii "1984")) (ascii "Repo Man") 1984 rfl rfl rfl (by decide) rfl⟩

/-! ## Errors of the store -/

/-- C5: for each of `set`, `get`, `setStruct` and `getStruct` and each command
the operation sends: when that command fails with an error `e` other than
`redis.ErrNil` (the commands before it having succeeded and their replies
having been decoded), the operation returns exactly `e` and the commands it
has sent end with the failed one. -/
theorem store_errors_are_returned {σ : Type} (c : Conn σ) (e : Err) (he : e ≠ Err.ErrNil) :
    (∀ w : World σ,
      (c.Do w.conn "SET" [Arg.str (ascii "Favorite Movie"), Arg.str (ascii "Repo Man")]).1.2
        = some e →
      (set c w).1 = some e ∧
      commands (set c w).2.trace = commands w.trace ++
        [("SET", [Arg.str (ascii "Favorite Movie"), Arg.str (ascii "Repo Man")])])
    ∧ (∀ (w : World σ) (r1 : Reply) (s1 : σ),
      c.Do w.conn "SET" [Arg.str (ascii "Favorite Movie"), Arg.str (ascii "Repo Man")]
        = ((r1, none), s1) →
      (c.Do s1 "SET" [Arg.str (ascii "Release Year"), Arg.int 1984]).1.2 = some e →
      (set c w).1 = some e ∧
      commands (set c w).2.trace = commands w.trace ++
        [("SET", [Arg.str (ascii "Favorite Movie"), Arg.str (ascii "Repo Man")]),
         ("SET", [Arg.str (ascii "Release Year"), Arg.int 1984])])
    ∧ (∀ w : World σ,
      (c.Do w.conn "GET" [Arg.str (ascii "Favorite Movie")]).1.2 = some e →
      (get c w).1 = some e ∧
      commands (get c w).2.trace = commands w.trace ++
        [("GET", [Arg.str (ascii "Favorite Movie")])])
    ∧ (∀ (w : World σ) (r1 : Reply) (s1 : σ) (v1 : Bytes),
      c.Do w.conn "GET" [Arg.str (ascii "Favorite Movie")] = ((r1, none), s1) →
      redisString (r1, none) = (v1, none) →
      (c.Do s1 "GET" [Arg.str (ascii "Release Year")]).1.2 = some e →
      (get c w).1 = some e ∧
      commands (get c w).2.trace = commands w.trace ++
        [("GET", [Arg.str (ascii "Favorite Movie")]),
         ("GET", [Arg.str (ascii "Release Year")])])
    ∧ (∀ (w : World σ) (r1 r2 : Reply) (s1 s2 : σ) (v1 : Bytes) (v2 : Int),
      c.Do w.conn "GET" [Arg.str (ascii "Favorite Movie")] = ((r1, none), s1) →
      redisString (r1, none) = (v1, none) →
      c.Do s1 "GET" [Arg.str (ascii "Release Year")] = ((r2, none), s2) →
      redisInt (r2, none) = (v2, none) →
      (c.Do s2 "GET" [Arg.str (ascii "Nonexistent Key")]).1.2 = some e →
      (get c w).1 = some e ∧
      commands (get c w).2.trace = commands w.trace ++
        [("GET", [Arg.str (ascii "Favorite Movie")]),
         ("GET", [Arg.str (ascii "Release Year")]),
         ("GET", [Arg.str (ascii "Nonexistent Key")])])
    ∧ (∀ w : World σ,
      (c.Do w.conn "SET"
        [Arg.str (ascii "user:coderminer.com"), Arg.bytes (jsonMarshal theUser).1]).1.2 = some e →
      (setStruct c w).1 = some e ∧
      commands (setStruct c w).2.trace = commands w.trace ++
        [("SET", [Arg.str (ascii "user:coderminer.com"), Arg.bytes (jsonMarshal theUser).1])])
    ∧ (∀ w : World σ,
      (c.Do w.conn "GET" [Arg.str (ascii "user:coderminer.com")]).1.2 = some e →
      (getStruct c w).1 = some e ∧
      commands (getStruct c w).2.trace = commands w.trace ++
        [("GET", [Arg.str (ascii "user:coderminer.com")])]) := by
  refine ⟨?_, ?_, ?_, ?_, ?_, ?_, ?_⟩
  · intro w h
    rcases hdo : c.Do w.conn "SET" [Arg.str (ascii "Favorite Movie"), Arg.str (ascii "Repo Man")]
      with ⟨⟨r, err⟩, s1⟩
    rw [hdo] at h
    simp only at h
    subst h
    simp [set, doCmd, hdo, commands_append, commands]
  · intro w r1 s1 h1 h
    rcases hdo : c.Do s1 "SET" [Arg.str (ascii "Release Year"), Arg.int 1984]
      with ⟨⟨r, err⟩, s2⟩
    rw [hdo] at h
    simp only at h
    subst h
    simp [set, doCmd, h1, hdo, commands_append, commands]
  · intro w h
    rcases hdo : c.Do w.conn "GET" [Arg.str (ascii "Favorite Movie")] with ⟨⟨r, err⟩, s1⟩
    rw [hdo] at h
    simp only at h
    subst h
    simp [get, doCmd, hdo, redisString, commands_append, commands]
  · intro w r1 s1 v1 h1 hv1 h
    rcases hdo : c.Do s1 "GET" [Arg.str (ascii "Release Year")] with ⟨⟨r, err⟩, s2⟩
    rw [hdo] at h
    simp only at h
    subst h
    simp [get, doCmd, h1, hv1, hdo, redisInt, World.emit, commands_append, commands]
  · intro w r1 r2 s1 s2 v1 v2 h1 hv1 h2 hv2 h
    rcases hdo : c.Do s2 "GET" [Arg.str (ascii "Nonexistent Key")] with ⟨⟨r, err⟩, s3⟩
    rw [hdo] at h
    simp only at h
    subst h
    have hs : redisString (r, some e) = ([], some e) := by simp [redisString]
    cases e <;>
      first
      | exact absurd rfl he
      | simp [get, doCmd, h1, hv1, h2, hv2, hdo, hs, World.emit, commands_append, commands]
  · intro w h
    rw [setStruct, setStructOf_eq, objectPrefix_username]
    simp [h, commands_append, commands]
  · intro w h
    rcases hdo : c.Do w.conn "GET" [Arg.str (ascii "user:coderminer.com")]
      with ⟨⟨r, err⟩, s1⟩
    rw [hdo] at h
    simp only at h
    subst h
    have hs : redisString (r, some e) = ([], some e) := by simp [redisString]
    cases e <;>
      first
      | exact absurd rfl he
      | simp [getStruct, getStructOf, doCmd, objectPrefix_identity, hdo, hs, commands_append,
          commands]

/-- C5 on the model store with a connection that fails on the first, second
or third command. -/
theorem store_errors_are_returned_witness :
    ((set storeConn (start (failingAfter 0 noData))).1 = some connReset ∧
      commands (set storeConn (start (failingAfter 0 noData))).2.trace =
        commands (start (failingAfter 0 noData)).trace ++
        [("SET", [Arg.str (ascii "Favorite Movie"), Arg.str (ascii "Repo Man")])])
    ∧ ((set storeConn (start (failingAfter 1 noData))).1 = some connReset ∧
      commands (set storeConn (start (failingAfter 1 noData))).2.trace =
        commands (start (failingAfter 1 noData)).trace ++
        [("SET", [Arg.str (ascii "Favorite Movie"), Arg.str (ascii "Repo Man")]),
         ("SET", [Arg.str (ascii "Release Year"), Arg.int 1984])])
    ∧ ((get storeConn (start (failingAfter 0 demoData))).1 = some connReset ∧
      commands (get storeConn (start (failingAfter 0 demoData))).2.trace =
        commands (start (failingAfter 0 demoData)).trace ++
        [("GET", [Arg.str (ascii "Favorite Movie")])])
    ∧ ((get storeConn (start (failingAfter 1 demoData))).1 = some connReset ∧
      commands (get storeConn (start (failingAfter 1 demoData))).2.trace =
        commands (start (failingAfter 1 demoData)).trace ++
        [("GET", [Arg.str (ascii "Favorite Movie")]),
         ("GET", [Arg.str (ascii "Release Year")])])
    ∧ ((get storeConn (start (failingAfter 2 demoData))).1 = some connReset ∧
      commands (get storeConn (start (failingAfter 2 demoData))).2.trace =
        commands (start (failingAfter 2 demoData)).trace ++
        [("GET", [Arg.str (ascii "Favorite Movie")]),
         ("GET", [Arg.str (ascii "Release Year")]),
         ("GET", [Arg.str (ascii "Nonexistent Key")])])
    ∧ ((setStruct storeConn (start (failingAfter 0 noData))).1 = some connReset ∧
      commands (setStruct storeConn (start (failingAfter 0 noData))).2.trace =
        commands (start (failingAfter 0 noData)).trace ++
        [("SET", [Arg.str (ascii "user:coderminer.com"), Arg.bytes (jsonMarshal theUser).1])])
    ∧ ((getStruct storeConn (start (failingAfter 0 noData))).1 = some connReset ∧
      commands (getStruct storeConn (start (failingAfter 0 noData))).2.trace =
        commands (start (failingAfter 0 noData)).trace ++
        [("GET", [Arg.str (ascii "user:coderminer.com")])]) :=
  have h := store_errors_are_returned storeConn connReset (by decide)
  ⟨h.1 (start (failingAfter 0 noData)) rfl,
   h.2.1 (start (failingAfter 1 noData)) (Reply.status (ascii "OK"))
     (failingAfter 0 (Store.exec noData "SET"
       [Arg.str (ascii "Favorite Movie"), Arg.str (ascii "Repo Man")]).2) rfl rfl,
   h.2.2.1 (start (failingAfter 0 demoData)) rfl,
   h.2.2.2.1 (start (failingAfter 1 demoData)) (Reply.bulk (ascii "Repo Man"))
     (failingAfter 0 demoData) (ascii "Repo Man") rfl rfl rfl,
   h.2.2.2.2.1 (start (failingAfter 2 demoData)) (Reply.bulk (ascii "Repo Man"))
     (Reply.bulk (ascii "1984")) (failingAfter 1 demoData) (failingAfter 0 demoData)
     (ascii "Repo Man") 1984 rfl rfl rfl (by decide) rfl,
   h.2.2.2.2.2.1 (start (failingAfter 0 noData)) rfl,
   h.2.2.2.2.2.2 (start (failingAfter 0 noData)) rfl⟩

/-- C9, as stated, fails: on a connection that fails on the GET, the reply is a
non-nil error other than `redis.ErrNil`, and `getStruct` returns that error
having done nothing after the GET: no `json.Unmarshal`, no output. -/
theorem getStruct_stops_on_store_error :
    redisString (storeConn.Do (failingAfter 0 noData) "GET"
      [Arg.str (ascii "user:coderminer.com")]).1 = ([], some connReset)
    ∧ ¬ (connReset = Err.ErrNil)
    ∧ (getStruct storeConn (start (failingAfter 0 noData))).1 = some connReset
    ∧ (getStruct storeConn (start (failingAfter 0 noData))).2.trace =
        [Event.cmd "GET" [Arg.str (ascii "user:coderminer.com")]] := by
  refine ⟨by decide, ?_, by decide, by decide⟩
  simp [connReset]

/-- C9, amended: when the GET reply decoded by `redis.String` carries an
error `e`, then for `e` other than `redis.ErrNil` `getStruct` stops there and
returns `e`, before `json.Unmarshal`; for `e` equal to `redis.ErrNil` it goes
on to `json.Unmarshal`, decoding the empty reply into a zero `User`. -/
theorem getStruct_decodes_only_without_error {σ : Type} (c : Conn σ) (w : World σ) (e : Err)
    (h : (redisString (c.Do w.conn "GET" [Arg.str (ascii "user:coderminer.com")]).1).2 = some e) :
    (e ≠ Err.ErrNil →
      (getStruct c w).1 = some e ∧
      (getStruct c w).2.trace = w.trace ++
        [Event.cmd "GET" [Arg.str (ascii "user:coderminer.com")]])
    ∧ (e = Err.ErrNil →
      (getStruct c w).1 = none ∧
      (getStruct c w).2.trace = w.trace ++
        [Event.cmd "GET" [Arg.str (ascii "user:coderminer.com")],
         Event.println "User does not exist",
         Event.unmarshal [],
         Event.printf "%+v\n" [Val.user zeroUser]]) := by
  have hs := redisString_error _ e h
  constructor
  · intro he
    cases e <;>
      first
      | exact absurd rfl he
      | simp [getStruct, getStructOf, doCmd, objectPrefix_identity, hs]
  · intro he
    subst he
    simp [getStruct, getStructOf, doCmd, objectPrefix_identity, hs, World.emit,
      jsonUnmarshal_empty]

/-- C9, amended, at a connection that fails on the GET and at the empty store. -/
theorem getStruct_decodes_only_without_error_witness :
    ((getStruct storeConn (start (failingAfter 0 noData))).1 = some connReset ∧
      (getStruct storeConn (start (failingAfter 0 noData))).2.trace =
        [Event.cmd "GET" [Arg.str (ascii "user:coderminer.com")]])
    ∧ ((getStruct storeConn (start (accepting noData))).1 = none ∧
      (getStruct storeConn (start (accepting noData))).2.trace =
        [Event.cmd "GET" [Arg.str (ascii "user:coderminer.com")],
         Event.println "User does not exist",
         Event.unmarshal [],
         Event.printf "%+v\n" [Val.user zeroUser]]) :=
  ⟨(getStruct_decodes_only_without_error storeConn (start (failingAfter 0 noData)) connReset
      (by decide)).1 (by decide),
   (getStruct_decodes_only_without_error storeConn (start (accepting noData)) Err.ErrNil
      (by decide)).2 rfl⟩

/-! ## Malformed stored values -/

/-- C6, evaluated at two malformed texts stored under "user:coderminer.com",
a truncated JSON text and an object whose `MobileID` is a number:
`json.Unmarshal` fails on both, and `getStruct` returns `nil` on both, having
printed the zero record and a record with only `Username` set. -/
theorem getStruct_swallows_decode_error :
    jsonUnmarshal truncatedRecord zeroUser = (zeroUser, some Err.jsonSyntaxError)
    ∧ (getStruct storeConn (start (accepting (recordAt truncatedRecord)))).1 = none
    ∧ (getStruct storeConn (start (accepting (recordAt truncatedRecord)))).2.trace =
        [Event.cmd "GET" [Arg.str (ascii "user:coderminer.com")],
         Event.unmarshal truncatedRecord,
         Event.printf "%+v\n" [Val.user zeroUser]]
    ∧ jsonUnmarshal nonStringRecord zeroUser =
        ({ Username := ascii "a", MobileID := [], Email := [], FirstName := [], LastName := [] },
          some (Err.jsonTypeError "number"))
    ∧ (getStruct storeConn (start (accepting (recordAt nonStringRecord)))).1 = none
    ∧ (getStruct storeConn (start (accepting (recordAt nonStringRecord)))).2.trace =
        [Event.cmd "GET" [Arg.str (ascii "user:coderminer.com")],
         Event.unmarshal nonStringRecord,
         Event.printf "%+v\n" [Val.user
           { Username := ascii "a", MobileID := [], Email := [], FirstName := [],
             LastName := [] }]] := by
  decide

/-- C7: when "Favorite Movie" holds some text and "Release Year" holds a text
that is not a valid decimal integer (it is not written as an optional sign
followed by digits, or the integer it spells does not fit `int`), `get`
returns the non-nil error of `redis.Int` (a `*strconv.NumError`) and sends no
command after the GET of "Release Year". -/
theorem get_fails_on_non_integer {σ : Type} (c : Conn σ) (w : World σ) (s1 s2 : σ)
    (movie year : Bytes)
    (h1 : c.Do w.conn "GET" [Arg.str (ascii "Favorite Movie")] = ((Reply.bulk movie, none), s1))
    (h2 : c.Do s1 "GET" [Arg.str (ascii "Release Year")] = ((Reply.bulk year, none), s2))
    (hy : spellsInt year = false) :
    (∃ e : NumErr, (redisInt (Reply.bulk year, none)).2 = some (Err.num e)
      ∧ (get c w).1 = some (Err.num e))
    ∧ commands (get c w).2.trace = commands w.trace ++
        [("GET", [Arg.str (ascii "Favorite Movie")]),
         ("GET", [Arg.str (ascii "Release Year")])] := by
  have hp : (parseInt year).2 ≠ none := by
    intro h
    rw [(parseInt_spec year).1.mp h] at hy
    exact absurd hy (by decide)
  rcases hpi : parseInt year with ⟨n, err⟩
  rw [hpi] at hp
  cases err with
  | none => exact absurd rfl hp
  | some e =>
    refine ⟨⟨e, ?_, ?_⟩, ?_⟩
    · simp [redisInt, hpi]
    · simp [get, doCmd, h1, h2, redisString, redisInt, hpi, World.emit]
    · simp [get, doCmd, h1, h2, redisString, redisInt, hpi, World.emit, commands_append, commands]

/-- C7 at two stores: a year spelled in words, and a year one above the
greatest `int`. -/
theorem get_fails_on_non_integer_witness :
    ((∃ e : NumErr,
        (redisInt (Reply.bulk (ascii "nineteen eighty-four"), none)).2 = some (Err.num e)
        ∧ (get storeConn (start (accepting wordyYear))).1 = some (Err.num e))
      ∧ commands (get storeConn (start (accepting wordyYear))).2.trace =
          commands (start (accepting wordyYear)).trace ++
          [("GET", [Arg.str (ascii "Favorite Movie")]),
           ("GET", [Arg.str (ascii "Release Year")])])
    ∧ ((∃ e : NumErr,
        (redisInt (Reply.bulk (ascii "9223372036854775808"), none)).2 = some (Err.num e)
        ∧ (get storeConn (start (accepting hugeYear))).1 = some (Err.num e))
      ∧ commands (get storeConn (start (accepting hugeYear))).2.trace =
          commands (start (accepting hugeYear)).trace ++
          [("GET", [Arg.str (ascii "Favorite Movie")]),
           ("GET", [Arg.str (ascii "Release Year")])]) :=
  ⟨get_fails_on_non_integer storeConn (start (accepting wordyYear)) (accepting wordyYear)
      (accepting wordyYear) (ascii "Repo Man") (ascii "nineteen eighty-four") rfl rfl
      (by decide),
   get_fails_on_non_integer storeConn (start (accepting hugeYear)) (accepting hugeYear)
      (accepting hugeYear) (ascii "Repo Man") (ascii "9223372036854775808") rfl rfl
      (by decide)⟩

/-! ## Keys -/

/-- C8: `setStruct` writes under the prefix followed by the record's
`Username`, `getStruct` reads under the prefix followed by the identity, both
keys are "user:coderminer.com", and for every prefix two composed keys are
equal exactly when the identities are. -/
theorem record_key_construction :
    (∀ (σ : Type) (c : Conn σ) (w : World σ) (user : User),
      commands (setStructOf user c w).2.trace = commands w.trace ++
        [("SET", [Arg.str ( objectPrefix ++ user.Username), Arg.bytes (jsonMarshal user).1])])
    ∧ (∀ (σ : Type) (c : Conn σ) (w : World σ) (username : Bytes),
      commands (getStructOf username c w).2.trace = commands w.trace ++
        [("GET", [Arg.str ( objectPrefix ++ username)])])
    ∧ (∀ (σ : Type) (c : Conn σ) (w : World σ),
      commands (setStruct c w).2.trace = commands w.trace ++
        [("SET", [Arg.str (ascii "user:coderminer.com"), Arg.bytes (jsonMarshal theUser).1])])
    ∧ (∀ (σ : Type) (c : Conn σ) (w : World σ),
      commands (getStruct c w).2.trace = commands w.trace ++
        [("GET", [Arg.str (ascii "user:coderminer.com")])])
    ∧ objectPrefix ++ theUser.Username = ascii "user:coderminer.com"
    ∧ objectPrefix ++ ascii "coderminer.com" = ascii "user:coderminer.com"
    ∧ (∀ p a b : Bytes, p ++ a = p ++ b ↔ a = b) := by
  have hget : ∀ (σ : Type) (c : Conn σ) (w : World σ) (username : Bytes),
      commands (getStructOf username c w).2.trace = commands w.trace ++
        [("GET", [Arg.str ( objectPrefix ++ username)])] := by
    intro σ c w username
    unfold getStructOf
    simp only [doCmd, World.emit]
    repeat' split
    all_goals simp [commands_append, commands]
  have hset : ∀ (σ : Type) (c : Conn σ) (w : World σ) (user : User),
      commands (setStructOf user c w).2.trace = commands w.trace ++
        [("SET", [Arg.str ( objectPrefix ++ user.Username), Arg.bytes (jsonMarshal user).1])] := by
    intro σ c w user
    rw [setStructOf_eq]
    simp [commands_append, commands]
  refine ⟨hset, hget, ?_, ?_, objectPrefix_username, objectPrefix_identity, ?_⟩
  · intro σ c w
    rw [setStruct, hset, objectPrefix_username]
  · intro σ c w
    rw [getStruct, hget, objectPrefix_identity]
  · intro p a b
    exact List.append_right_inj p

/-! ## Frame -/

theorem Store.Do_get_data (st : Store) (k : Arg) :
    (Store.Do st "GET" [k]).2.data = st.data := by
  unfold Store.Do
  have he : (Store.exec st.data "GET" [k]).2 = st.data := by
    simp only [Store.exec]
    split <;> rfl
  split <;> simp [he]

theorem Store.Do_set_data (st : Store) (k v : Arg) (k1 : Bytes) (h : k1 ≠ argBytes k) :
    (Store.Do st "SET" [k, v]).2.data k1 = st.data k1 := by
  unfold Store.Do
  have he : (Store.exec st.data "SET" [k, v]).2 k1 = st.data k1 := by
    simp [Store.exec, h]
  split <;> simp [he]

theorem get_conn_data (w : World Store) : (get storeConn w).2.conn.data = w.conn.data := by
  unfold get
  simp only [doCmd, storeConn, World.emit]
  repeat' split
  all_goals simp [Store.Do_get_data]

theorem getStruct_conn_data (w : World Store) :
    (getStruct storeConn w).2.conn.data = w.conn.data := by
  unfold getStruct getStructOf
  simp only [doCmd, storeConn, World.emit]
  repeat' split
  all_goals simp [Store.Do_get_data]

theorem set_conn_data (w : World Store) (k : Bytes) (h1 : k ≠ ascii "Favorite Movie")
    (h2 : k ≠ ascii "Release Year") : (set storeConn w).2.conn.data k = w.conn.data k := by
  have hd1 := Store.Do_set_data w.conn (Arg.str (ascii "Favorite Movie"))
    (Arg.str (ascii "Repo Man")) k h1
  rcases hdo1 : Store.Do w.conn "SET" [Arg.str (ascii "Favorite Movie"),
    Arg.str (ascii "Repo Man")] with ⟨⟨r1, err1⟩, s1⟩
  rw [hdo1] at hd1
  have hd2 := Store.Do_set_data s1 (Arg.str (ascii "Release Year")) (Arg.int 1984) k h2
  rcases hdo2 : Store.Do s1 "SET" [Arg.str (ascii "Release Year"), Arg.int 1984]
    with ⟨⟨r2, err2⟩, s2⟩
  rw [hdo2] at hd2
  simp only at hd1 hd2
  cases err1 <;> cases err2 <;> simp [set, doCmd, storeConn, hdo1, hdo2, hd1, hd2]

theorem setStruct_conn_data (w : World Store) (k : Bytes) (h : k ≠ ascii "user:coderminer.com") :
    (setStruct storeConn w).2.conn.data k = w.conn.data k := by
  rw [setStruct, setStructOf_eq, objectPrefix_username]
  simp [storeConn, Store.Do_set_data, argBytes, h]

/-- C10: on the model store, whatever the faults of the connection, `get` and
`getStruct` leave the value of every key as it was, `set` that of every key
other than "Favorite Movie" and "Release Year", and `setStruct` that of every
key other than "user:coderminer.com". -/
theorem operations_frame (w : World Store) (k : Bytes) :
    (get storeConn w).2.conn.data k = w.conn.data k
    ∧ (getStruct storeConn w).2.conn.data k = w.conn.data k
    ∧ (k ≠ ascii "Favorite Movie" → k ≠ ascii "Release Year" →
        (set storeConn w).2.conn.data k = w.conn.data k)
    ∧ (k ≠ ascii "user:coderminer.com" →
        (setStruct storeConn w).2.conn.data k = w.conn.data k) :=
  ⟨by rw [get_conn_data], by rw [getStruct_conn_data], set_conn_data w k,
    setStruct_conn_data w k⟩

end GoRedis
